import Mathlib

/-!
# DS3 Explorer: the lazy tree model and the transfer bookkeeping

A shallow embedding of `src/models/ds3_browser_model.cc` (the classes
`DS3BrowserItem` and `DS3BrowserModel`) and of
`src/lib/work_items/object_work_item.cc` (`ObjectWorkItem::ReadFile` and
`ObjectWorkItem::WriteFile`).

Items live in a store indexed by addresses; a pointer is an optional address
(`none` is the null pointer).  Every operation that dereferences a pointer
returns an `Option`: `none` stands for a null or dangling dereference, which
the C++ program does not survive.  Memory is never reclaimed in the store:
`delete` only detaches an item, so a detached item is no longer reachable
from the root.  The notifications sent to the view (`beginInsertRows`,
`beginRemoveRows`, `beginResetModel` and their counterparts) do not touch the
model data and are left out.
-/

namespace DS3

/-! ## Qt value types -/

/-- The three shapes of `QVariant` that the model stores in `m_data`. -/
inductive QVariant where
  | invalid : QVariant
  | str : String → QVariant
  | ulong : Nat → QVariant
deriving DecidableEq

/-- `QVariant::toString`. -/
def QVariant.toString : QVariant → String
  | .invalid => ""
  | .str s => s
  | .ulong n => Nat.repr n

/-- `QList<T>::value(int i)`: the element at `i`, or nothing (the default
constructed value) when `i` is out of bounds. -/
def QList.value {α : Type} (l : List α) (i : Int) : Option α :=
  if 0 ≤ i then l[i.toNat]? else none

/-- `QList<T>::indexOf`: the position of the first occurrence, `-1` when
there is none. -/
def QList.indexOf {α : Type} [DecidableEq α] (l : List α) (a : α) : Int :=
  if a ∈ l then (l.indexOf a : Int) else -1

/-- A pointer to an item: an address in the store, `none` for null. -/
abbrev Ptr := Option Nat

/-- The part of `QModelIndex` the model reads: row, column, internal pointer
and whether a model is attached. -/
structure QModelIndex where
  r : Int
  c : Int
  i : Ptr
  m : Bool
deriving DecidableEq

/-- The default constructed `QModelIndex()`. -/
def QModelIndex.invalid : QModelIndex := ⟨-1, -1, none, false⟩

/-- `QModelIndex::isValid`. -/
def QModelIndex.isValid (x : QModelIndex) : Bool :=
  decide (0 ≤ x.r) && decide (0 ≤ x.c) && x.m

/-- `QAbstractItemModel::createIndex(row, column, ptr)`. -/
def createIndex (row column : Int) (ptr : Ptr) : QModelIndex := ⟨row, column, ptr, true⟩

/-- Library functions of Qt whose results the model stores without looking
at them: `QString::replace(QRegExp(pattern), "")`, the conversion of a
timestamp from the REST format to the view format, and
`QVariant::toULongLong`. -/
structure Qt where
  replaceRegExp : String → String → String
  convertTimestamp : String → String
  toULongLong : QVariant → Nat

/-! ## The C++ type int -/

/-- The values a C++ `int` holds (32 bits, two's complement). -/
abbrev IsInt (x : Int) : Prop := -2 ^ 31 ≤ x ∧ x < 2 ^ 31

/-- The `int` that has the same last 32 bits as `x`. -/
def wrapInt (x : Int) : Int := (x + 2 ^ 31) % 2 ^ 32 - 2 ^ 31

/-- The sum `x + y` of two `int`s as the compiled program computes it: the
exact sum when an `int` holds it, and the sum wrapped around otherwise.
Values that no `int` holds (the lists of the model are not bounded in
length) are added exactly. -/
def intAdd (x y : Int) : Int :=
  if IsInt x ∧ IsInt y then wrapInt (x + y) else x + y

/-! ## Constants of ds3_browser_model.cc -/

def NAME : Int := 0
def OWNER : Int := 1
def SIZE : Int := 2
def KIND : Int := 3
def CREATED : Int := 4

def BUCKET : String := "Bucket"
def OBJECT : String := "Object"
def FOLDER : String := "Folder"
def BREAK : String := "Break"

/-! ## NumberHelper -/

def NumberHelper.B : Nat := 1
def NumberHelper.KB : Nat := NumberHelper.B * 1024
def NumberHelper.MB : Nat := NumberHelper.KB * 1024
def NumberHelper.GB : Nat := NumberHelper.MB * 1024
def NumberHelper.TB : Nat := NumberHelper.GB * 1024

/-- `QString::number(num, 'f', precision)` for a `num` that is a whole
number, which is all `ToHumanSize` ever passes (the quotients are integer
divisions). -/
def QString.number (num : Nat) (precision : Nat) : String :=
  if precision = 0 then Nat.repr num else Nat.repr num ++ "." ++ String.mk (List.replicate precision '0')

/-- `NumberHelper::ToHumanSize`. -/
def NumberHelper.ToHumanSize (bytes : Nat) : String :=
  if bytes > NumberHelper.TB then QString.number (bytes / NumberHelper.TB) 1 ++ " " ++ "TB"
  else if bytes > NumberHelper.GB then QString.number (bytes / NumberHelper.GB) 1 ++ " " ++ "GB"
  else if bytes > NumberHelper.MB then QString.number (bytes / NumberHelper.MB) 1 ++ " " ++ "MB"
  else if bytes > NumberHelper.KB then QString.number (bytes / NumberHelper.KB) 0 ++ " " ++ "KB"
  else QString.number bytes 0 ++ " " ++ "Bytes"

/-! ## DS3BrowserItem -/

/-- The fields of `class DS3BrowserItem`. -/
structure DS3BrowserItem where
  m_canFetchMore : Bool
  m_fetching : Bool
  m_children : List Nat
  m_data : List QVariant
  m_bucketName : String
  m_maxKeys : Nat
  m_nextMarker : String
  m_parent : Ptr
  m_pfx : String
deriving DecidableEq

namespace DS3BrowserItem

/-- The constructor `DS3BrowserItem(data, bucketName, prefix, parent)`. -/
def new (data : List QVariant) (bucketName : String) (pfx : String) (parent : Ptr) :
    DS3BrowserItem where
  m_canFetchMore := true
  m_fetching := false
  m_children := []
  m_data := data
  m_bucketName := bucketName
  m_maxKeys := 1000
  m_nextMarker := ""
  m_parent := parent
  m_pfx := pfx

/-- `DS3BrowserItem::AppendChild`. -/
def AppendChild (self : DS3BrowserItem) (item : Nat) : DS3BrowserItem :=
  { self with m_children := self.m_children ++ [item] }

/-- `DS3BrowserItem::GetChild`: a null pointer when `row` is out of range. -/
def GetChild (self : DS3BrowserItem) (row : Int) : Ptr :=
  QList.value self.m_children row

/-- `DS3BrowserItem::RemoveChild`.  `QList::at` with a negative index is
outside the list, hence `none`. -/
def RemoveChild (self : DS3BrowserItem) (row : Int) : Option DS3BrowserItem :=
  if row < (self.m_children.length : Int) then
    if 0 ≤ row then some { self with m_children := self.m_children.eraseIdx row.toNat }
    else none
  else some self

/-- `DS3BrowserItem::GetChildCount`. -/
def GetChildCount (self : DS3BrowserItem) : Int := (self.m_children.length : Int)

/-- `DS3BrowserItem::GetColumnCount`. -/
def GetColumnCount (self : DS3BrowserItem) : Int := (self.m_data.length : Int)

/-- `DS3BrowserItem::GetData`. -/
def GetData (qt : Qt) (self : DS3BrowserItem) (column : Int) : QVariant :=
  let data := (QList.value self.m_data column).getD QVariant.invalid
  if column = SIZE ∧ data ≠ QVariant.str "Size" ∧ data ≠ QVariant.str "--" then
    QVariant.str (NumberHelper.ToHumanSize (qt.toULongLong data))
  else data

/-- `DS3BrowserItem::Reset`. -/
def Reset (self : DS3BrowserItem) : DS3BrowserItem :=
  { self with m_children := [], m_canFetchMore := true, m_nextMarker := "" }

end DS3BrowserItem

/-! ## The object-storage SDK types and the client -/

/-- The fields of `ds3_object` that the model reads. -/
structure ds3_object where
  name : String
  size : Nat
  last_modified : Option String
deriving DecidableEq

/-- The fields of `ds3_get_bucket_response` that the model reads. -/
structure ds3_get_bucket_response where
  common_prefixes : List String
  objects : List ds3_object
  next_marker : Option String
  max_keys : Nat
  is_truncated : Bool
deriving DecidableEq

/-- The fields of `ds3_bucket` that the model reads. -/
structure ds3_bucket where
  name : String
  creation_date : String
deriving DecidableEq

/-- The fields of `ds3_get_service_response` that the model reads. -/
structure ds3_get_service_response where
  owner : String
  buckets : List ds3_bucket
deriving DecidableEq

/-- The arguments of one call `m_client->GetBucket(bucketName, prefix,
delimiter, marker, maxKeys)`. -/
structure GetBucketRequest where
  bucketName : String
  pfx : String
  delimiter : String
  marker : String
  maxKeys : Nat
deriving DecidableEq

/-- The remote side as seen through `Client::GetBucket`: whatever listing it
answers to a request. -/
structure Client where
  GetBucket : GetBucketRequest → ds3_get_bucket_response

/-! ## DS3BrowserModel -/

/-- The state of a `DS3BrowserModel`: the store of items (an item's address
is its position), the address of `m_rootItem`, the parent indexes of the
`GetServiceWatcher`s still waiting for their answer, and the trace of the
`GetBucket` calls made on `m_client`. -/
structure DS3BrowserModel where
  items : List DS3BrowserItem
  m_rootItem : Nat
  watchers : List QModelIndex
  requests : List GetBucketRequest
deriving DecidableEq

namespace DS3BrowserModel

/-- The column names given to the root item by the constructor. -/
def column_names : List QVariant :=
  [.str "Name", .str "Owner", .str "Size", .str "Kind", .str "Created"]

/-- The constructor `DS3BrowserModel(client, parent)`. -/
def new : DS3BrowserModel where
  items := [DS3BrowserItem.new column_names "" "" none]
  m_rootItem := 0
  watchers := []
  requests := []

/-- Dereference of an item pointer. -/
def deref (md : DS3BrowserModel) (p : Ptr) : Option DS3BrowserItem :=
  match p with
  | none => none
  | some a => md.items[a]?

/-- A write through an item pointer: `p->Set...(...)`. -/
def modifyItem (md : DS3BrowserModel) (p : Ptr) (f : DS3BrowserItem → DS3BrowserItem) :
    Option DS3BrowserModel :=
  match p with
  | none => none
  | some a =>
    match md.items[a]? with
    | none => none
    | some it => some { md with items := md.items.set a (f it) }

/-- The operator `new DS3BrowserItem(...)`, once per element of `its`, in
order: the addresses handed out and the store afterwards. -/
def allocAll (md : DS3BrowserModel) (its : List DS3BrowserItem) : List Nat × DS3BrowserModel :=
  (List.range' md.items.length its.length, { md with items := md.items ++ its })

/-- Modelled from the spec: `DS3BrowserModel::IndexToItem` is declared in
models/ds3_browser_model.h, which is not among the sources; it hands back the
item pointer that `createIndex` stored in the index. -/
def IndexToItem (index : QModelIndex) : Ptr := index.i

/-- The item an index stands for in `canFetchMore`, `columnCount`,
`fetchMore`, `index`, `rowCount`, `Refresh`, `FetchMoreObjects` and
`HandleGetServiceResponse`: `IndexToItem(parent)` for a valid index and
`m_rootItem` otherwise. -/
def itemOrRoot (md : DS3BrowserModel) (parent : QModelIndex) : Ptr :=
  if parent.isValid then IndexToItem parent else some md.m_rootItem

/-- `DS3BrowserItem::GetRow`, for the item at address `this`. -/
def GetRow (md : DS3BrowserModel) (this : Nat) : Option Int :=
  match md.items[this]? with
  | none => none
  | some it =>
    match it.m_parent with
    | some p =>
      match md.items[p]? with
      | none => none
      | some pit => some (QList.indexOf pit.m_children this)
    | none => some 0

/-- `DS3BrowserModel::canFetchMore`. -/
def canFetchMore (md : DS3BrowserModel) (parent : QModelIndex) : Option Bool :=
  match md.deref (md.itemOrRoot parent) with
  | none => none
  | some parentItem => some parentItem.m_canFetchMore

/-- `DS3BrowserModel::columnCount`. -/
def columnCount (md : DS3BrowserModel) (parent : QModelIndex) : Option Int :=
  match md.deref (md.itemOrRoot parent) with
  | none => none
  | some item => some item.GetColumnCount

/-- `DS3BrowserModel::rowCount`. -/
def rowCount (md : DS3BrowserModel) (parent : QModelIndex) : Option Int :=
  if parent.c > 0 then some 0
  else
    match md.deref (md.itemOrRoot parent) with
    | none => none
    | some parentItem => some parentItem.GetChildCount

/-- `QAbstractItemModel::hasIndex`. -/
def hasIndex (md : DS3BrowserModel) (row column : Int) (parent : QModelIndex) : Option Bool :=
  if row < 0 ∨ column < 0 then some false
  else
    match md.rowCount parent with
    | none => none
    | some rc =>
      if row < rc then
        match md.columnCount parent with
        | none => none
        | some cc => some (decide (column < cc))
      else some false

/-- `DS3BrowserModel::hasChildren`. -/
def hasChildren (qt : Qt) (md : DS3BrowserModel) (parent : QModelIndex) : Option Bool :=
  if !parent.isValid then some true
  else
    match md.deref (IndexToItem parent) with
    | none => none
    | some item =>
      let kind := item.GetData qt KIND
      some (kind == QVariant.str BUCKET || kind == QVariant.str FOLDER)

/-- `DS3BrowserModel::index`. -/
def index (md : DS3BrowserModel) (row column : Int) (parent : QModelIndex) : Option QModelIndex :=
  match md.hasIndex row column parent with
  | none => none
  | some false => some QModelIndex.invalid
  | some true =>
    match md.deref (md.itemOrRoot parent) with
    | none => none
    | some parentItem =>
      let childItem := parentItem.GetChild row
      if childItem.isSome then some (createIndex row column childItem)
      else some QModelIndex.invalid

/-- `DS3BrowserModel::parent`. -/
def parent (md : DS3BrowserModel) (index : QModelIndex) : Option QModelIndex :=
  if !index.isValid then some QModelIndex.invalid
  else
    match md.deref (IndexToItem index) with
    | none => none
    | some childItem =>
      let parentItem := childItem.m_parent
      if parentItem = some md.m_rootItem then some QModelIndex.invalid
      else
        match parentItem with
        | none => none
        | some p =>
          match md.GetRow p with
          | none => none
          | some row => some (createIndex row 0 parentItem)

/-- The loop of `removeRows`: `parent->RemoveChild(row + i)` for the `n`
values of `i` from `i` on, the sum `row + i` being that of two `int`s. -/
def removeRowsLoop (md : DS3BrowserModel) (parent : Ptr) (row : Int) :
    Nat → Int → Option DS3BrowserModel
  | 0, _ => some md
  | n + 1, i =>
    match parent with
    | none => none
    | some a =>
      match md.items[a]? with
      | none => none
      | some it =>
        match it.RemoveChild (intAdd row i) with
        | none => none
        | some it' =>
          removeRowsLoop { md with items := md.items.set a it' } parent row n (i + 1)

/-- `DS3BrowserModel::removeRows`: the returned flag and the state
afterwards.  `row` and `count` are `int`s; the sum `row + count` of the guard
is the sum of two `int`s, which wraps around when it exceeds the largest
`int`. -/
def removeRows (md : DS3BrowserModel) (row count : Int) (parentIndex : QModelIndex) :
    Option (Bool × DS3BrowserModel) :=
  if row < 0 ∨ count ≤ 0 then some (false, md)
  else
    match md.rowCount parentIndex with
    | none => none
    | some rc =>
      if intAdd row count > rc then some (false, md)
      else
        match md.removeRowsLoop (IndexToItem parentIndex) row count.toNat 0 with
        | none => none
        | some md' => some (true, md')

/-- `QAbstractItemModel::removeRow(row, parent)`, which is
`removeRows(row, 1, parent)`. -/
def removeRow (md : DS3BrowserModel) (row : Int) (parentIndex : QModelIndex) :
    Option (Bool × DS3BrowserModel) :=
  md.removeRows row 1 parentIndex

/-- `DS3BrowserModel::Refresh`. -/
def Refresh (md : DS3BrowserModel) (index : QModelIndex) : Option DS3BrowserModel :=
  md.modifyItem (md.itemOrRoot index) DS3BrowserItem.Reset

/-- `DS3BrowserModel::FetchMoreBuckets`: a watcher is created for the
pending `GetService` request; the answer arrives later in
`HandleGetServiceResponse`. -/
def FetchMoreBuckets (md : DS3BrowserModel) (parent : QModelIndex) : DS3BrowserModel :=
  { md with watchers := md.watchers ++ [parent] }

/-- The first loop of `FetchMoreObjects`: the names of the children of kind
Folder (the set `currentCommonPrefixNames`). -/
def currentCommonPrefixNames (qt : Qt) (md : DS3BrowserModel) : List Nat → Option (List String)
  | [] => some []
  | c :: cs =>
    match md.items[c]? with
    | none => none
    | some object =>
      match currentCommonPrefixNames qt md cs with
      | none => none
      | some names =>
        if object.GetData qt KIND = QVariant.str FOLDER then
          some ((object.GetData qt NAME).toString :: names)
        else some names

/-- The name `FetchMoreObjects` derives from a raw common prefix. -/
def folderName (qt : Qt) (pfx : String) (rawCommonPrefix : String) : String :=
  qt.replaceRegExp "/$" (qt.replaceRegExp ("^" ++ pfx) rawCommonPrefix)

/-- The second loop of `FetchMoreObjects`: the Folder items created for the
common prefixes of the response. -/
def newFolders (qt : Qt) (bucketName pfx : String) (owner : QVariant) (parentItem : Ptr)
    (current : List String) (common_prefixes : List String) : List DS3BrowserItem :=
  common_prefixes.filterMap fun rawCommonPrefix =>
    let nextName := folderName qt pfx rawCommonPrefix
    if nextName ∈ current then none
    else some (DS3BrowserItem.new
      [.str nextName, owner, .str "--", .str FOLDER, .str "--"] bucketName pfx parentItem)

/-- The column `Created` of an object: the converted `last_modified`, empty
when there is none. -/
def objectCreated (qt : Qt) (rawObject : ds3_object) : String :=
  match rawObject.last_modified with
  | some rawCreated => qt.convertTimestamp rawCreated
  | none => ""

/-- The third loop of `FetchMoreObjects`: the Object items created for the
objects of the response. -/
def newObjects (qt : Qt) (bucketName pfx : String) (owner : QVariant) (parentItem : Ptr)
    (objects : List ds3_object) : List DS3BrowserItem :=
  objects.filterMap fun rawObject =>
    if rawObject.name = pfx then none
    else some (DS3BrowserItem.new
      [.str (qt.replaceRegExp ("^" ++ pfx) rawObject.name), owner, .ulong rawObject.size,
        .str OBJECT, .str (objectCreated qt rawObject)] bucketName pfx parentItem)

/-- The page break item of `FetchMoreObjects`. -/
def pageBreak (bucketName pfx : String) (parentItem : Ptr) : DS3BrowserItem :=
  DS3BrowserItem.new [.str "Click to load more", .str "", .str "", .str BREAK]
    bucketName pfx parentItem

/-- The listing prefix `FetchMoreObjects` asks for under an item. -/
def listingPrefix (qt : Qt) (it : DS3BrowserItem) : String :=
  if !(it.GetData qt KIND == QVariant.str BUCKET) then
    it.m_pfx ++ ((it.GetData qt NAME).toString ++ "/")
  else it.m_pfx

/-- All the items `FetchMoreObjects` creates, in the order of creation: the
folders, the objects, the page break. -/
def createdItems (qt : Qt) (client : Client) (it : DS3BrowserItem) (parentItem : Ptr)
    (current : List String) : List DS3BrowserItem :=
  let pfx := listingPrefix qt it
  let response := client.GetBucket ⟨it.m_bucketName, pfx, "/", it.m_nextMarker, it.m_maxKeys⟩
  newFolders qt it.m_bucketName pfx (it.GetData qt OWNER) parentItem current
      response.common_prefixes
    ++ newObjects qt it.m_bucketName pfx (it.GetData qt OWNER) parentItem response.objects
    ++ (if response.is_truncated then [pageBreak it.m_bucketName pfx parentItem] else [])


/-- `DS3BrowserModel::FetchMoreObjects`. -/
def FetchMoreObjects (qt : Qt) (client : Client) (md : DS3BrowserModel) (parent : QModelIndex) :
    Option DS3BrowserModel := do
  let parentItem := md.itemOrRoot parent
  let it ← md.deref parentItem
  let bucketName := it.m_bucketName
  let pfx := listingPrefix qt it
  let maxKeys := it.m_maxKeys
  let nextMarker := it.m_nextMarker
  let request : GetBucketRequest := ⟨bucketName, pfx, "/", nextMarker, maxKeys⟩
  let response := client.GetBucket request
  let owner := it.GetData qt OWNER
  let current ← currentCommonPrefixNames qt md it.m_children
  let md0 := { md with requests := md.requests ++ [request] }
  let (folders, md1) := md0.allocAll
    (newFolders qt bucketName pfx owner parentItem current response.common_prefixes)
  let (objects, md2) := md1.allocAll
    (newObjects qt bucketName pfx owner parentItem response.objects)
  let md3 ← (match response.next_marker with
    | some marker => md2.modifyItem parentItem (fun p => { p with m_nextMarker := marker })
    | none => some md2)
  let md4 ← md3.modifyItem parentItem (fun p => { p with m_maxKeys := response.max_keys })
  let (breaks, md5) := md4.allocAll
    (if response.is_truncated then [pageBreak bucketName pfx parentItem] else [])
  let newChildren := folders ++ objects ++ breaks
  if newChildren.length > 0 then
    md5.modifyItem parentItem (fun p => newChildren.foldl DS3BrowserItem.AppendChild p)
  else some md5

/-- One round of the loop of `HandleGetServiceResponse`: the Bucket item of
`rawBucket` is created and appended to the parent item. -/
def appendBucket (qt : Qt) (parentItem : Ptr) (owner : String) (md : DS3BrowserModel)
    (rawBucket : ds3_bucket) : Option DS3BrowserModel :=
  let name := rawBucket.name
  let created := qt.convertTimestamp rawBucket.creation_date
  let bucket := DS3BrowserItem.new
    [.str name, .str owner, .str "--", .str BUCKET, .str created] name "" parentItem
  (md.allocAll [bucket]).2.modifyItem parentItem (fun p => p.AppendChild md.items.length)

/-- `DS3BrowserModel::HandleGetServiceResponse`, run for the watcher at
position `sender` of the pending ones with the `response` it received. -/
def HandleGetServiceResponse (qt : Qt) (md : DS3BrowserModel) (sender : Nat)
    (response : ds3_get_service_response) : Option DS3BrowserModel := do
  let parent ← md.watchers[sender]?
  let parentItem := md.itemOrRoot parent
  let md1 ← response.buckets.foldlM (appendBucket qt parentItem response.owner) md
  let md2 := { md1 with watchers := md1.watchers.eraseIdx sender }
  md2.modifyItem parentItem (fun p => { p with m_fetching := false })

/-- The search of `fetchMore` for a page break in the last row: the pointer
`pageBreakItem`. -/
def pageBreakItem (qt : Qt) (md : DS3BrowserModel) (it : DS3BrowserItem) : Option Ptr :=
  let lastRow := it.GetChildCount - 1
  if lastRow ≥ 0 then
    match md.deref (it.GetChild lastRow) with
    | none => none
    | some lastChildItem =>
      if lastChildItem.GetData qt KIND = QVariant.str BREAK then some (it.GetChild lastRow)
      else some none
  else some none

/-- `DS3BrowserModel::fetchMore`. -/
def fetchMore (qt : Qt) (client : Client) (md : DS3BrowserModel) (parent : QModelIndex) :
    Option DS3BrowserModel := do
  let parentIsValid := parent.isValid
  let parentItem := md.itemOrRoot parent
  let it ← md.deref parentItem
  let lastRow := it.GetChildCount - 1
  let pageBreakItem ← pageBreakItem qt md it
  let md1 ← md.modifyItem parentItem (fun p => { p with m_fetching := true })
  let md2 ← (if parentIsValid then FetchMoreObjects qt client md1 parent
    else some (FetchMoreBuckets md1 parent))
  let md3 ← (if pageBreakItem.isSome then (md2.removeRow lastRow parent).map Prod.snd
    else some md2)
  md3.modifyItem parentItem (fun p => { p with m_canFetchMore := false })

end DS3BrowserModel

/-! ## Indexes of the tree and reachable states -/

/-- The indexes the model hands out in state `md`: the invalid index, which
stands for the root, and every valid index that `index` returns under such
an index. -/
inductive IsIndex (md : DS3BrowserModel) : QModelIndex → Prop where
  | root : IsIndex md QModelIndex.invalid
  | child (p x : QModelIndex) (row column : Int) :
      IsIndex md p → md.index row column p = some x → x.isValid = true → IsIndex md x

/-- The states of a model that was constructed and then driven through
`fetchMore`, `HandleGetServiceResponse`, `Refresh` and `removeRows`, each
called on an index of the state it runs in; `fetchMore` is only called on
the indexes that satisfy `P`. -/
inductive ReachableVia (qt : Qt) (P : QModelIndex → Prop) : DS3BrowserModel → Prop where
  | init : ReachableVia qt P DS3BrowserModel.new
  | fetchMore (client : Client) (md md' : DS3BrowserModel) (parent : QModelIndex) :
      ReachableVia qt P md → IsIndex md parent → P parent →
      md.fetchMore qt client parent = some md' → ReachableVia qt P md'
  | handleGetServiceResponse (md md' : DS3BrowserModel) (sender : Nat)
      (response : ds3_get_service_response) :
      ReachableVia qt P md →
      md.HandleGetServiceResponse qt sender response = some md' → ReachableVia qt P md'
  | refresh (md md' : DS3BrowserModel) (index : QModelIndex) :
      ReachableVia qt P md → IsIndex md index →
      md.Refresh index = some md' → ReachableVia qt P md'
  | removeRows (md md' : DS3BrowserModel) (row count : Int) (parent : QModelIndex) (b : Bool) :
      ReachableVia qt P md → IsIndex md parent →
      md.removeRows row count parent = some (b, md') → ReachableVia qt P md'

/-- The reachable states, `fetchMore` being called on any index. -/
def Reachable (qt : Qt) : DS3BrowserModel → Prop := ReachableVia qt (fun _ => True)

/-- The reachable states when `fetchMore` is only called on the root and on
indexes of column 0, the indexes `parent` hands out. -/
def ReachableCol0 (qt : Qt) : DS3BrowserModel → Prop := ReachableVia qt (fun p => p.c ≤ 0)

/-- Whether the item at address `c` is of kind Break. -/
def isBreak (qt : Qt) (md : DS3BrowserModel) (c : Nat) : Bool :=
  match md.items[c]? with
  | none => false
  | some it => decide (it.GetData qt KIND = QVariant.str BREAK)

/-! ## Invariants of the tree -/

/-- The shape of the tree that every operation keeps: the root exists and
has no parent; every child of an item exists and points back to that item
through `m_parent`; no item lists a child twice; the pending watchers were
all created for the root; and the root has no child of kind Break. -/
structure TreeInv (qt : Qt) (md : DS3BrowserModel) : Prop where
  root_live : md.m_rootItem < md.items.length
  root_parent : ∀ it : DS3BrowserItem, md.items[md.m_rootItem]? = some it → it.m_parent = none
  child_parent : ∀ (a : Nat) (it : DS3BrowserItem) (c : Nat),
    md.items[a]? = some it → c ∈ it.m_children →
    ∃ ci : DS3BrowserItem, md.items[c]? = some ci ∧ ci.m_parent = some a
  nodup : ∀ (a : Nat) (it : DS3BrowserItem), md.items[a]? = some it → it.m_children.Nodup
  watchers_root : ∀ w ∈ md.watchers, w.isValid = false
  root_children : ∀ (it : DS3BrowserItem) (c : Nat),
    md.items[md.m_rootItem]? = some it → c ∈ it.m_children → isBreak qt md c = false

/-- A list of children in which an item of kind Break can only come last. -/
def BreakLast (qt : Qt) (md : DS3BrowserModel) (cs : List Nat) : Prop :=
  ∀ l1 c l2, cs = l1 ++ c :: l2 → isBreak qt md c = true → l2 = []

/-- Every item of the store has its children of kind Break last. -/
def BreakInv (qt : Qt) (md : DS3BrowserModel) : Prop :=
  ∀ (a : Nat) (it : DS3BrowserItem), md.items[a]? = some it → BreakLast qt md it.m_children


/-! ## ObjectWorkItem -/

/-- The conversion of a `qint64` to `size_t` (64 bits). -/
def toSizeT (x : Int) : Nat := (x % 2 ^ 64).toNat

/-- The conversion of a `size_t` to `qint64`. -/
def toQint64 (n : Nat) : Int :=
  if n % 2 ^ 64 < 2 ^ 63 then ((n % 2 ^ 64 : Nat) : Int) else ((n % 2 ^ 64 : Nat) : Int) - 2 ^ 64

/-- Modelled from the spec: `BulkWorkItem` is declared in
lib/work_items/bulk_work_item.h, which is not among the sources; it "tracks
bytes transferred across multi-file jobs".  Kept here are the count of bytes
transferred and the trace of the arguments of `UpdateBytesTransferred`. -/
structure BulkWorkItem where
  m_bytesTransferred : Nat
  updates : List Nat
deriving DecidableEq

/-- Modelled from the spec: `BulkWorkItem::UpdateBytesTransferred(bytes)`
adds `bytes` to the count of bytes transferred. -/
def BulkWorkItem.UpdateBytesTransferred (self : BulkWorkItem) (bytes : Nat) : BulkWorkItem :=
  { m_bytesTransferred := self.m_bytesTransferred + bytes, updates := self.updates ++ [bytes] }

/-- The field of `ObjectWorkItem` that `ReadFile` and `WriteFile` write:
the bulk work item behind the pointer `m_bulkWorkItem`, `none` for NULL. -/
structure ObjectWorkItem where
  m_bulkWorkItem : Option BulkWorkItem
deriving DecidableEq

/-- `ObjectWorkItem::ReadFile(data, size, count)`: the value returned and
the state afterwards.  `fileRead maxSize` is what `m_file.read(data,
maxSize)` reports, a `qint64`. -/
def ObjectWorkItem.ReadFile (fileRead : Int → Int) (self : ObjectWorkItem) (size count : Nat) :
    Nat × ObjectWorkItem :=
  let bytesRead := toSizeT (fileRead (toQint64 (size * count % 2 ^ 64)))
  match self.m_bulkWorkItem with
  | some b => (bytesRead, { m_bulkWorkItem := some (b.UpdateBytesTransferred bytesRead) })
  | none => (bytesRead, self)

/-- `ObjectWorkItem::WriteFile(data, size, count)`: the value returned and
the state afterwards.  `fileWrite maxSize` is what `m_file.write(data,
maxSize)` reports, a `qint64`. -/
def ObjectWorkItem.WriteFile (fileWrite : Int → Int) (self : ObjectWorkItem) (size count : Nat) :
    Nat × ObjectWorkItem :=
  let bytesWritten := toSizeT (fileWrite (toQint64 (size * count % 2 ^ 64)))
  match self.m_bulkWorkItem with
  | some b => (bytesWritten, { m_bulkWorkItem := some (b.UpdateBytesTransferred bytesWritten) })
  | none => (bytesWritten, self)

/-! ## Sample data -/

/-- A stand-in for the library functions of Qt in the samples: it agrees
with `QRegExp` on the two patterns the model uses when the listing prefix has
no character that is special in a regular expression; timestamps are kept as
they are. -/
def qt0 : Qt where
  replaceRegExp := fun pattern s =>
    if pattern = "/$" then
      (if s.data.getLast? = some '/' then String.mk s.data.dropLast else s)
    else
      match pattern.data with
      | '^' :: rest => if rest.isPrefixOf s.data then String.mk (s.data.drop rest.length) else s
      | _ => s
  convertTimestamp := fun s => s
  toULongLong := fun v => match v with
    | .ulong n => n
    | _ => 0

/-- A listing with nothing in it that says there is more to come. -/
def truncatedEmpty : Client where
  GetBucket := fun _ => ⟨[], [], none, 1000, true⟩

/-- A listing of two folders and two objects, truncated. -/
def listing1 : Client where
  GetBucket := fun _ =>
    ⟨["docs/", "img/"], [⟨"a.txt", 10, none⟩, ⟨"b.txt", 20, some "t"⟩], some "b.txt", 500, true⟩

/-! ## The listing page in the words of the specification -/

/-- The names of the children of kind Folder that an item has in state
`md`. -/
def folderChildNames (qt : Qt) (md : DS3BrowserModel) (it : DS3BrowserItem) : List String :=
  ((it.m_children.filterMap fun c => md.items[c]?).filter
    fun o => decide (o.GetData qt KIND = QVariant.str FOLDER)).map
    fun o => (o.GetData qt NAME).toString

/-- One Folder item per common prefix of the response whose name is not
already the name of a Folder child, in the order of the response. -/
def expectedFolders (qt : Qt) (md : DS3BrowserModel) (it : DS3BrowserItem) (a : Nat)
    (resp : ds3_get_bucket_response) : List DS3BrowserItem :=
  ((resp.common_prefixes.map (DS3BrowserModel.folderName qt (DS3BrowserModel.listingPrefix qt it))).filter
    fun n => decide (n ∉ folderChildNames qt md it)).map
    fun n => DS3BrowserItem.new
      [.str n, it.GetData qt OWNER, .str "--", .str FOLDER, .str "--"]
      it.m_bucketName (DS3BrowserModel.listingPrefix qt it) (some a)

/-- One Object item per object of the response other than the object whose
key is the listing prefix, in the order of the response. -/
def expectedObjects (qt : Qt) (it : DS3BrowserItem) (a : Nat)
    (resp : ds3_get_bucket_response) : List DS3BrowserItem :=
  (resp.objects.filter fun o => decide (o.name ≠ DS3BrowserModel.listingPrefix qt it)).map
    fun o => DS3BrowserItem.new
      [.str (qt.replaceRegExp ("^" ++ DS3BrowserModel.listingPrefix qt it) o.name),
        it.GetData qt OWNER, .ulong o.size, .str OBJECT,
        .str (DS3BrowserModel.objectCreated qt o)]
      it.m_bucketName (DS3BrowserModel.listingPrefix qt it) (some a)

/-- The "Click to load more" item of kind Break, present exactly when the
response is truncated. -/
def expectedBreak (qt : Qt) (it : DS3BrowserItem) (a : Nat)
    (resp : ds3_get_bucket_response) : List DS3BrowserItem :=
  if resp.is_truncated then
    [DS3BrowserItem.new [.str "Click to load more", .str "", .str "", .str BREAK]
      it.m_bucketName (DS3BrowserModel.listingPrefix qt it) (some a)]
  else []

/-- The request `FetchMoreObjects` sends for the item `it`. -/
def requestFor (qt : Qt) (it : DS3BrowserItem) : GetBucketRequest :=
  ⟨it.m_bucketName, DS3BrowserModel.listingPrefix qt it, "/", it.m_nextMarker, it.m_maxKeys⟩

/-- The item of the bucket `b` in `sample1`. -/
def sample1BucketItem : DS3BrowserItem :=
  DS3BrowserItem.new [.str "b", .str "me", .str "--", .str "Bucket", .str "d"] "b" "" (some 0)

/-- The state after the root was fetched and the service answered with the
one bucket `b`: the root at address 0 and the bucket at address 1. -/
def sample1 : DS3BrowserModel where
  items :=
    [{ DS3BrowserItem.new DS3BrowserModel.column_names "" "" none with
        m_canFetchMore := false, m_children := [1] },
     sample1BucketItem]
  m_rootItem := 0
  watchers := []
  requests := []

/-- The index of the bucket `b` of `sample1`, column 0. -/
def sample1Bucket : QModelIndex := createIndex 0 0 (some 1)


/-- The state an operation returned, for the samples (a model that was just
constructed if it did not return). -/
def returned (o : Option DS3BrowserModel) : DS3BrowserModel := o.getD DS3BrowserModel.new

/-- The index of the bucket `b` of `sample1` in column 1 (the column
Owner). -/
def sample1BucketOwner : QModelIndex := createIndex 0 1 (some 1)

/-- The state after the first `fetchMore` on the root, the answer of the
service still pending. -/
def sample0 : DS3BrowserModel :=
  returned (DS3BrowserModel.new.fetchMore qt0 truncatedEmpty QModelIndex.invalid)

/-- The state after `fetchMore` on the bucket of `sample1` through its
index of column 1, the listing being truncated. -/
def sampleOneBreak : DS3BrowserModel :=
  returned (sample1.fetchMore qt0 truncatedEmpty sample1BucketOwner)

/-- The state after a second `fetchMore` through the same index of column
1. -/
def sampleTwoBreaks : DS3BrowserModel :=
  returned (sampleOneBreak.fetchMore qt0 truncatedEmpty sample1BucketOwner)

/-- The state after `fetchMore` on the bucket of `sample1` through its index
of column 0, with the listing `listing1`: the bucket has two folders, two
objects and a page break. -/
def sampleListed : DS3BrowserModel :=
  returned (sample1.fetchMore qt0 listing1 sample1Bucket)


/-- The item of the bucket `b` in `sampleListed`. -/
def sampleListedBucketItem : DS3BrowserItem :=
  (sampleListed.items[1]?).getD sample1BucketItem

/-- The state after the first two rounds of the loop of `removeRows(1,
2147483647)` on the bucket of `sampleListed`. -/
def sampleTwoRemoved : DS3BrowserModel :=
  returned (sampleListed.removeRowsLoop (some 1) 1 2 0)

/-- The item of the bucket `b` in `sampleTwoRemoved`. -/
def sampleTwoRemovedBucketItem : DS3BrowserItem :=
  (sampleTwoRemoved.items[1]?).getD sample1BucketItem

/-! # Properties -/

open DS3BrowserModel

/-! ## hasChildren -/

/-- C6: `hasChildren` is true for the root (any index that is not valid) and
for every item of kind Bucket or Folder, whatever its children are, and
false for every item of kind Object or Break. -/
theorem hasChildren_by_kind (qt : Qt) (md : DS3BrowserModel) (parent : QModelIndex) :
    (parent.isValid = false → md.hasChildren qt parent = some true) ∧
    (∀ a it, parent.isValid = true → parent.i = some a → md.items[a]? = some it →
      ((it.GetData qt KIND = QVariant.str BUCKET ∨ it.GetData qt KIND = QVariant.str FOLDER) →
        md.hasChildren qt parent = some true) ∧
      ((it.GetData qt KIND = QVariant.str OBJECT ∨ it.GetData qt KIND = QVariant.str BREAK) →
        md.hasChildren qt parent = some false)) := by
  refine ⟨fun h => by simp [hasChildren, h], ?_⟩
  intro a it hv hi ha
  have hd : md.deref (IndexToItem parent) = some it := by simp [deref, IndexToItem, hi, ha]
  refine ⟨fun hk => ?_, fun hk => ?_⟩
  · rcases hk with hk | hk <;> simp [hasChildren, hv, hd, hk]
  · rcases hk with hk | hk <;> simp [hasChildren, hv, hd, hk, BUCKET, FOLDER, OBJECT, BREAK]

/-! ## removeRows -/

theorem intAdd_zero (x : Int) : intAdd x 0 = x := by
  unfold intAdd wrapInt
  split
  · rename_i h
    have h1 := h.1.1
    have h2 := h.1.2
    omega
  · omega

theorem intAdd_le (x y : Int) (h : 0 ≤ x + y) : intAdd x y ≤ x + y := by
  unfold intAdd wrapInt
  split
  · omega
  · omega

theorem intAdd_exact (x y : Int) (h : IsInt (x + y)) : intAdd x y = x + y := by
  unfold intAdd wrapInt
  have h1 := h.1
  have h2 := h.2
  split
  · omega
  · rfl

/-- The guard of `removeRows`: false is returned and the model is left as it
was when `row < 0`, when `count <= 0`, and when the `int` sum `row + count`
exceeds `rowCount(parent)`, which is the exact sum whenever an `int` holds
it. -/
theorem removeRows_guard (md : DS3BrowserModel) (row count : Int) (parentIndex : QModelIndex) :
    (row < 0 ∨ count ≤ 0 → md.removeRows row count parentIndex = some (false, md)) ∧
    (∀ rc, md.rowCount parentIndex = some rc → intAdd row count > rc →
      md.removeRows row count parentIndex = some (false, md)) ∧
    (∀ rc, md.rowCount parentIndex = some rc → IsInt (row + count) → row + count > rc →
      md.removeRows row count parentIndex = some (false, md)) := by
  have h2 : ∀ rc, md.rowCount parentIndex = some rc → intAdd row count > rc →
      md.removeRows row count parentIndex = some (false, md) := by
    intro rc hrc hgt
    by_cases h : row < 0 ∨ count ≤ 0
    · simp [removeRows, h]
    · simp [removeRows, h, hrc, hgt]
  refine ⟨fun h => by simp [removeRows, h], h2, ?_⟩
  intro rc hrc hint hgt
  exact h2 rc hrc (by rw [intAdd_exact row count hint]; exact hgt)

/-! ## ObjectWorkItem -/

/-- C7: `ReadFile` and `WriteFile` return what the file reported, converted
to `size_t` (the reported value itself when it is a byte count); a bulk work
item that is attached has `UpdateBytesTransferred` called exactly once, with
the value returned; nothing is updated when there is none. -/
theorem ReadFile_WriteFile_bookkeeping (file : Int → Int) (size count : Nat) :
    (∀ b : BulkWorkItem,
      (ObjectWorkItem.ReadFile file ⟨some b⟩ size count).1
          = toSizeT (file (toQint64 (size * count % 2 ^ 64))) ∧
      (ObjectWorkItem.ReadFile file ⟨some b⟩ size count).2
          = ⟨some ⟨b.m_bytesTransferred + (ObjectWorkItem.ReadFile file ⟨some b⟩ size count).1,
              b.updates ++ [(ObjectWorkItem.ReadFile file ⟨some b⟩ size count).1]⟩⟩ ∧
      (ObjectWorkItem.WriteFile file ⟨some b⟩ size count).1
          = toSizeT (file (toQint64 (size * count % 2 ^ 64))) ∧
      (ObjectWorkItem.WriteFile file ⟨some b⟩ size count).2
          = ⟨some ⟨b.m_bytesTransferred + (ObjectWorkItem.WriteFile file ⟨some b⟩ size count).1,
              b.updates ++ [(ObjectWorkItem.WriteFile file ⟨some b⟩ size count).1]⟩⟩) ∧
    ObjectWorkItem.ReadFile file ⟨none⟩ size count
        = (toSizeT (file (toQint64 (size * count % 2 ^ 64))), ⟨none⟩) ∧
    ObjectWorkItem.WriteFile file ⟨none⟩ size count
        = (toSizeT (file (toQint64 (size * count % 2 ^ 64))), ⟨none⟩) ∧
    (∀ x : Int, 0 ≤ x → x < 2 ^ 63 → (toSizeT x : Int) = x) := by
  refine ⟨fun b => ⟨rfl, rfl, rfl, rfl⟩, rfl, rfl, ?_⟩
  intro x h0 h1
  unfold toSizeT
  rw [Int.emod_eq_of_lt h0 (by omega)]
  exact Int.toNat_of_nonneg h0

/-- C9 at a failing input: the file reports the error `-1` to a request for
`1 * 10` bytes, and `18446744073709551615` is added to the bytes
transferred. -/
theorem ReadFile_error_overcounts :
    (ObjectWorkItem.ReadFile (fun _ => -1) ⟨some ⟨0, []⟩⟩ 1 10).2
        = ⟨some ⟨18446744073709551615, [18446744073709551615]⟩⟩ ∧
    (ObjectWorkItem.WriteFile (fun _ => -1) ⟨some ⟨0, []⟩⟩ 1 10).2
        = ⟨some ⟨18446744073709551615, [18446744073709551615]⟩⟩ ∧
    ¬ (18446744073709551615 ≤ 1 * 10) := by
  decide


/-! ## The store -/

theorem set_self_of_getElem? {α : Type} (l : List α) (a : Nat) (x : α) (h : l[a]? = some x) :
    l.set a x = l := by
  apply List.ext_getElem?
  intro j
  rw [List.getElem?_set]
  by_cases hj : a = j
  · subst hj
    have hlt : a < l.length := by
      by_contra hc
      rw [List.getElem?_eq_none (by omega)] at h
      cases h
    simp [hlt, h]
  · simp [hj]

theorem lt_of_getElem?_eq_some {α : Type} (l : List α) (a : Nat) (x : α) (h : l[a]? = some x) :
    a < l.length := by
  by_contra hc
  rw [List.getElem?_eq_none (by omega)] at h
  cases h

theorem getElem?_set_append_self {α : Type} (l r : List α) (a : Nat) (x : α) (h : a < l.length) :
    (l.set a x ++ r)[a]? = some x := by
  rw [List.getElem?_append_left (by simpa using h)]
  simp [h]

theorem set_set_append {α : Type} (l r : List α) (a : Nat) (x y : α) (h : a < l.length) :
    (l.set a x ++ r).set a y = l.set a y ++ r := by
  rw [List.set_append_left _ _ (by simpa using h), List.set_set]

theorem getElem?_set_append_old {α : Type} (l r : List α) (a b : Nat) (x : α)
    (hb : b < l.length) (hne : b ≠ a) : (l.set a x ++ r)[b]? = l[b]? := by
  rw [List.getElem?_append_left (by simpa using hb), List.getElem?_set]
  simp [Ne.symm hne]

theorem getElem?_set_append_new {α : Type} (l r : List α) (a k : Nat) (x : α) :
    (l.set a x ++ r)[l.length + k]? = r[k]? := by
  rw [List.getElem?_append_right (by simp)]
  simp

theorem modifyItem_some (md : DS3BrowserModel) (a : Nat) (it : DS3BrowserItem)
    (f : DS3BrowserItem → DS3BrowserItem) (h : md.items[a]? = some it) :
    md.modifyItem (some a) f = some { md with items := md.items.set a (f it) } := by
  simp [modifyItem, h]

theorem modifyItem_eq_some (md md' : DS3BrowserModel) (p : Ptr)
    (f : DS3BrowserItem → DS3BrowserItem) (h : md.modifyItem p f = some md') :
    ∃ a it, p = some a ∧ md.items[a]? = some it ∧
      md' = { md with items := md.items.set a (f it) } := by
  cases p with
  | none => simp [modifyItem] at h
  | some a =>
    cases hit : md.items[a]? with
    | none => simp [modifyItem, hit] at h
    | some it =>
      refine ⟨a, it, rfl, hit, ?_⟩
      simp [modifyItem, hit] at h
      exact h.symm

theorem foldl_AppendChild (ids : List Nat) (it : DS3BrowserItem) :
    ids.foldl DS3BrowserItem.AppendChild it
      = { it with m_children := it.m_children ++ ids } := by
  induction ids generalizing it with
  | nil => simp
  | cons c cs ih => simp [List.foldl_cons, ih, DS3BrowserItem.AppendChild]

theorem modifyItem_append (l r : List DS3BrowserItem) (a : Nat) (x : DS3BrowserItem)
    (f : DS3BrowserItem → DS3BrowserItem) (root : Nat) (w : List QModelIndex)
    (rq : List GetBucketRequest) (h : l[a]? = some x) :
    (DS3BrowserModel.mk (l ++ r) root w rq).modifyItem (some a) f
      = some (DS3BrowserModel.mk (l.set a (f x) ++ r) root w rq) := by
  have hlt : a < l.length := lt_of_getElem?_eq_some _ _ _ h
  have h2 : (l ++ r)[a]? = some x := by
    rw [List.getElem?_append_left (by simpa using hlt)]; exact h
  simp only [modifyItem, h2]
  rw [List.set_append_left _ _ (by simpa using hlt)]

theorem getElem?_set_self {α : Type} (l : List α) (a : Nat) (x : α) (h : a < l.length) :
    (l.set a x)[a]? = some x := by
  simp [List.getElem?_set, h]

theorem range_three (s x y z : Nat) :
    List.range' s x ++ List.range' (s + x) y ++ List.range' (s + (x + y)) z
      = List.range' s (x + y + z) := by
  have h1 := List.range'_append s x y 1
  have h2 := List.range'_append s (y + x) z 1
  simp only [Nat.one_mul] at h1 h2
  rw [h1]
  have : s + (y + x) = s + (x + y) := by omega
  rw [this] at h2
  rw [h2]
  congr 1
  omega

/-- The items `FetchMoreObjects` creates under the item `it` at address `a`
when the folder names already present are `cur` and the listing is `resp`. -/
theorem FetchMoreObjects_eq (qt : Qt) (client : Client) (md : DS3BrowserModel)
    (parent : QModelIndex) (a : Nat) (it : DS3BrowserItem) (cur : List String)
    (hp : md.itemOrRoot parent = some a) (ha : md.items[a]? = some it)
    (hcur : currentCommonPrefixNames qt md it.m_children = some cur) :
    md.FetchMoreObjects qt client parent = some
      { items := md.items.set a
          { it with
            m_nextMarker := (client.GetBucket ⟨it.m_bucketName, listingPrefix qt it, "/",
              it.m_nextMarker, it.m_maxKeys⟩).next_marker.getD it.m_nextMarker
            m_maxKeys := (client.GetBucket ⟨it.m_bucketName, listingPrefix qt it, "/",
              it.m_nextMarker, it.m_maxKeys⟩).max_keys
            m_children := it.m_children ++ List.range' md.items.length
              (createdItems qt client it (some a) cur).length }
          ++ createdItems qt client it (some a) cur
        m_rootItem := md.m_rootItem
        watchers := md.watchers
        requests := md.requests ++ [⟨it.m_bucketName, listingPrefix qt it, "/",
              it.m_nextMarker, it.m_maxKeys⟩] } := by
  have hlt : a < md.items.length := lt_of_getElem?_eq_some _ _ _ ha
  simp only [FetchMoreObjects, createdItems, hp, deref, ha, Option.bind_eq_bind,
    Option.some_bind, hcur, allocAll]
  generalize client.GetBucket _ = resp
  generalize newFolders _ _ _ _ _ _ _ = F
  generalize newObjects _ _ _ _ _ _ = O
  generalize (if resp.is_truncated = true then [pageBreak _ _ _] else []) = B
  have hnew := range_three md.items.length F.length O.length B.length
  cases hm : resp.next_marker with
  | none =>
    simp only [Option.some_bind, Option.getD_none]
    rw [List.append_assoc, modifyItem_append _ _ _ _ _ _ _ _ ha]
    simp only [Option.some_bind, List.length_append, List.length_set, List.length_range']
    split
    · rw [List.append_assoc _ (F ++ O) B,
        modifyItem_append _ _ _ _ _ _ _ _ (getElem?_set_self _ _ _ hlt), List.set_set,
        foldl_AppendChild, hnew]
    · rename_i h0
      have hz : F.length + O.length + B.length = 0 := by omega
      simp [hz, List.append_assoc]
  | some mk =>
    simp only [Option.some_bind, Option.getD_some]
    rw [List.append_assoc, modifyItem_append _ _ _ _ _ _ _ _ ha]
    simp only [Option.some_bind]
    rw [modifyItem_append _ _ _ _ _ _ _ _ (getElem?_set_self _ _ _ hlt), List.set_set]
    simp only [Option.some_bind, List.length_append, List.length_set, List.length_range']
    split
    · rw [List.append_assoc _ (F ++ O) B,
        modifyItem_append _ _ _ _ _ _ _ _ (getElem?_set_self _ _ _ hlt), List.set_set,
        foldl_AppendChild, hnew]
    · rename_i h0
      have hz : F.length + O.length + B.length = 0 := by omega
      simp [hz, List.append_assoc]


theorem currentCommonPrefixNames_eq (qt : Qt) (md : DS3BrowserModel) (cs : List Nat)
    (h : ∀ c ∈ cs, c < md.items.length) :
    currentCommonPrefixNames qt md cs = some
      (((cs.filterMap fun c => md.items[c]?).filter
        fun o => decide (o.GetData qt KIND = QVariant.str FOLDER)).map
        fun o => (o.GetData qt NAME).toString) := by
  induction cs with
  | nil => simp [currentCommonPrefixNames]
  | cons c cs ih =>
    have hc : c < md.items.length := h c (by simp)
    have ih2 := ih (fun x hx => h x (by simp [hx]))
    obtain ⟨o, ho⟩ : ∃ o, md.items[c]? = some o := ⟨md.items[c], by simp [hc]⟩
    simp only [currentCommonPrefixNames, ho, ih2, List.filterMap_cons]
    by_cases hk : o.GetData qt KIND = QVariant.str FOLDER
    · simp [hk]
    · simp [hk]

theorem createdItems_eq (qt : Qt) (client : Client) (md : DS3BrowserModel)
    (it : DS3BrowserItem) (a : Nat) :
    createdItems qt client it (some a) (folderChildNames qt md it)
      = expectedFolders qt md it a (client.GetBucket (requestFor qt it))
        ++ expectedObjects qt it a (client.GetBucket (requestFor qt it))
        ++ expectedBreak qt it a (client.GetBucket (requestFor qt it)) := by
  simp only [createdItems, requestFor, expectedFolders, expectedObjects, expectedBreak,
    newFolders, newObjects, pageBreak]
  congr 1
  congr 1
  · generalize (client.GetBucket _).common_prefixes = l
    induction l with
    | nil => simp
    | cons x xs ih =>
      by_cases hx : folderName qt (listingPrefix qt it) x ∈ folderChildNames qt md it
      · simp [List.filterMap_cons, hx]
        simpa using ih
      · simp [List.filterMap_cons, hx]
        simpa using ih
  · generalize (client.GetBucket _).objects = l
    induction l with
    | nil => simp
    | cons x xs ih =>
      by_cases hx : x.name = listingPrefix qt it
      · simp [List.filterMap_cons, hx]
        simpa using ih
      · simp [List.filterMap_cons, hx]
        simpa using ih


theorem itemOrRoot_valid (md : DS3BrowserModel) (parent : QModelIndex) (a : Nat)
    (hv : parent.isValid = true) (hi : parent.i = some a) : md.itemOrRoot parent = some a := by
  simp [itemOrRoot, hv, IndexToItem, hi]

theorem itemOrRoot_invalid (md : DS3BrowserModel) (parent : QModelIndex)
    (hv : parent.isValid = false) : md.itemOrRoot parent = some md.m_rootItem := by
  simp [itemOrRoot, hv]

/-! ## FetchMoreObjects -/

/-- C1: after `FetchMoreObjects` on a valid parent index, the parent's
children are its previous children, untouched and in the same order,
followed by the addresses of the new items, which are: one Folder item per
common prefix of the response whose name is not yet the name of a Folder
child, one Object item per object of the response whose key is not the
listing prefix, and one "Click to load more" Break item exactly when the
response is truncated. -/
theorem FetchMoreObjects_children (qt : Qt) (client : Client) (md : DS3BrowserModel)
    (parent : QModelIndex) (a : Nat) (it : DS3BrowserItem)
    (hv : parent.isValid = true) (hi : parent.i = some a) (ha : md.items[a]? = some it)
    (hch : ∀ c ∈ it.m_children, c < md.items.length) :
    ∃ md' it', md.FetchMoreObjects qt client parent = some md' ∧
      md'.items[a]? = some it' ∧
      it'.m_children = it.m_children ++ List.range' md.items.length
        (expectedFolders qt md it a (client.GetBucket (requestFor qt it))
          ++ expectedObjects qt it a (client.GetBucket (requestFor qt it))
          ++ expectedBreak qt it a (client.GetBucket (requestFor qt it))).length ∧
      (∀ b, b < md.items.length → b ≠ a → md'.items[b]? = md.items[b]?) ∧
      (∀ k, md'.items[md.items.length + k]?
        = (expectedFolders qt md it a (client.GetBucket (requestFor qt it))
          ++ expectedObjects qt it a (client.GetBucket (requestFor qt it))
          ++ expectedBreak qt it a (client.GetBucket (requestFor qt it)))[k]?) := by
  have hlt : a < md.items.length := lt_of_getElem?_eq_some _ _ _ ha
  have hcur := currentCommonPrefixNames_eq qt md it.m_children hch
  have heq := FetchMoreObjects_eq qt client md parent a it _ (itemOrRoot_valid md parent a hv hi)
    ha hcur
  have hc := createdItems_eq qt client md it a
  simp only [folderChildNames] at hc
  rw [hc] at heq
  refine ⟨_, _, heq, getElem?_set_append_self _ _ _ _ hlt, rfl, ?_, ?_⟩
  · intro b hb hne
    exact getElem?_set_append_old _ _ _ _ _ hb hne
  · intro k
    exact getElem?_set_append_new _ _ _ _ _

/-- C10: `FetchMoreObjects` asks for the page with the parent's stored next
marker and max-keys; afterwards the parent stores the next marker of the
response when there is one and its old marker otherwise, and the max_keys of
the response; every other item keeps its marker and max-keys; a newly
constructed item stores the empty marker and 1000. -/
theorem FetchMoreObjects_marker (qt : Qt) (client : Client) (md : DS3BrowserModel)
    (parent : QModelIndex) (a : Nat) (it : DS3BrowserItem)
    (hv : parent.isValid = true) (hi : parent.i = some a) (ha : md.items[a]? = some it)
    (hch : ∀ c ∈ it.m_children, c < md.items.length) :
    (∃ md' it', md.FetchMoreObjects qt client parent = some md' ∧
      md'.requests = md.requests
        ++ [⟨it.m_bucketName, listingPrefix qt it, "/", it.m_nextMarker, it.m_maxKeys⟩] ∧
      md'.items[a]? = some it' ∧
      it'.m_nextMarker = (match (client.GetBucket (requestFor qt it)).next_marker with
        | some marker => marker
        | none => it.m_nextMarker) ∧
      it'.m_maxKeys = (client.GetBucket (requestFor qt it)).max_keys ∧
      (∀ b, b < md.items.length → b ≠ a → md'.items[b]? = md.items[b]?)) ∧
    (∀ data bucketName pfx p,
      (DS3BrowserItem.new data bucketName pfx p).m_nextMarker = "" ∧
      (DS3BrowserItem.new data bucketName pfx p).m_maxKeys = 1000) := by
  have hlt : a < md.items.length := lt_of_getElem?_eq_some _ _ _ ha
  have hcur := currentCommonPrefixNames_eq qt md it.m_children hch
  have heq := FetchMoreObjects_eq qt client md parent a it _ (itemOrRoot_valid md parent a hv hi)
    ha hcur
  refine ⟨⟨_, _, heq, rfl, getElem?_set_append_self _ _ _ _ hlt, ?_, rfl, ?_⟩, ?_⟩
  · simp only [requestFor]
    cases (client.GetBucket _).next_marker <;> rfl
  · intro b hb hne
    exact getElem?_set_append_old _ _ _ _ _ hb hne
  · intro data bucketName pfx p
    exact ⟨rfl, rfl⟩

/-- C1 on the bucket of `sample1` and the listing `listing1`. -/
theorem FetchMoreObjects_children_witness :
    sample1Bucket.isValid = true ∧ sample1Bucket.i = some 1 ∧
    sample1.items[1]? = some sample1BucketItem ∧
    (∀ c ∈ sample1BucketItem.m_children, c < sample1.items.length) ∧
    ∃ md' it', sample1.FetchMoreObjects qt0 listing1 sample1Bucket = some md' ∧
      md'.items[1]? = some it' ∧ it'.m_children = [2, 3, 4, 5, 6] :=
  ⟨by decide, by decide, by decide, by decide, by
    obtain ⟨md', it', h1, h2, h3, -, -⟩ := FetchMoreObjects_children qt0 listing1 sample1
      sample1Bucket 1 sample1BucketItem (by decide) (by decide) (by decide) (by decide)
    exact ⟨md', it', h1, h2, by rw [h3]; decide⟩⟩

/-- C10 on the bucket of `sample1` and the listing `listing1`. -/
theorem FetchMoreObjects_marker_witness :
    sample1Bucket.isValid = true ∧ sample1Bucket.i = some 1 ∧
    sample1.items[1]? = some sample1BucketItem ∧
    (∀ c ∈ sample1BucketItem.m_children, c < sample1.items.length) ∧
    ∃ md' it', sample1.FetchMoreObjects qt0 listing1 sample1Bucket = some md' ∧
      md'.requests = [⟨"b", "", "/", "", 1000⟩] ∧
      md'.items[1]? = some it' ∧ it'.m_nextMarker = "b.txt" ∧ it'.m_maxKeys = 500 :=
  ⟨by decide, by decide, by decide, by decide, by
    obtain ⟨⟨md', it', h1, h2, h3, h4, h5, -⟩, -⟩ := FetchMoreObjects_marker qt0 listing1
      sample1 sample1Bucket 1 sample1BucketItem (by decide) (by decide) (by decide) (by decide)
    exact ⟨md', it', h1, by rw [h2]; decide, h3, by rw [h4]; decide, by rw [h5]; decide⟩⟩


/-! ## Keeping the invariants -/

theorem GetData_congr (qt : Qt) (x y : DS3BrowserItem) (h : x.m_data = y.m_data) (col : Int) :
    x.GetData qt col = y.GetData qt col := by
  simp [DS3BrowserItem.GetData, h]

theorem getElem?_update_cases (l r : List DS3BrowserItem) (a b : Nat) (x y : DS3BrowserItem)
    (h : (l.set a x ++ r)[b]? = some y) :
    (b = a ∧ a < l.length ∧ y = x) ∨ (b ≠ a ∧ b < l.length ∧ l[b]? = some y) ∨
    (l.length ≤ b ∧ r[b - l.length]? = some y) := by
  by_cases hb : b < l.length
  · by_cases hba : b = a
    · subst hba
      rw [getElem?_set_append_self _ _ _ _ hb] at h
      exact Or.inl ⟨rfl, hb, by injection h with h; exact h.symm⟩
    · rw [getElem?_set_append_old _ _ _ _ _ hb hba] at h
      exact Or.inr (Or.inl ⟨hba, hb, h⟩)
  · have hle : l.length ≤ b := by omega
    obtain ⟨k, rfl⟩ : ∃ k, b = l.length + k := ⟨b - l.length, by omega⟩
    rw [getElem?_set_append_new] at h
    exact Or.inr (Or.inr ⟨hle, by simpa using h⟩)

theorem isBreak_update (qt : Qt) (md : DS3BrowserModel) (a : Nat) (it itA : DS3BrowserItem)
    (New : List DS3BrowserItem) (W : List QModelIndex) (R : List GetBucketRequest)
    (ha : md.items[a]? = some it) (hdata : itA.m_data = it.m_data) (c : Nat)
    (hc : c < md.items.length) :
    isBreak qt ⟨md.items.set a itA ++ New, md.m_rootItem, W, R⟩ c = isBreak qt md c := by
  by_cases hca : c = a
  · subst hca
    simp only [isBreak, getElem?_set_append_self _ _ _ _ hc, ha,
      GetData_congr qt itA it hdata]
  · simp only [isBreak, getElem?_set_append_old _ _ _ _ _ hc hca]

theorem isBreak_new (qt : Qt) (md : DS3BrowserModel) (a : Nat) (itA : DS3BrowserItem)
    (New : List DS3BrowserItem) (W : List QModelIndex) (R : List GetBucketRequest) (k : Nat)
    (x : DS3BrowserItem) (hx : New[k]? = some x) :
    isBreak qt ⟨md.items.set a itA ++ New, md.m_rootItem, W, R⟩ (md.items.length + k)
      = decide (x.GetData qt KIND = QVariant.str BREAK) := by
  simp only [isBreak, getElem?_set_append_new, hx]

theorem child_lt (qt : Qt) (md : DS3BrowserModel) (hinv : TreeInv qt md) (a : Nat)
    (it : DS3BrowserItem) (ha : md.items[a]? = some it) (c : Nat) (hc : c ∈ it.m_children) :
    c < md.items.length := by
  obtain ⟨ci, hci, -⟩ := hinv.child_parent a it c ha hc
  exact lt_of_getElem?_eq_some _ _ _ hci

theorem mem_range'_iff (s n c : Nat) : c ∈ List.range' s n ↔ s ≤ c ∧ c < s + n := by
  rw [List.mem_range'_1]


theorem lookup_old (md : DS3BrowserModel) (a : Nat) (it itA : DS3BrowserItem)
    (New : List DS3BrowserItem) (ha : md.items[a]? = some it)
    (hdata : itA.m_data = it.m_data) (hpar : itA.m_parent = it.m_parent)
    (c : Nat) (ci : DS3BrowserItem) (hc : md.items[c]? = some ci) :
    ∃ ci', (md.items.set a itA ++ New)[c]? = some ci' ∧ ci'.m_parent = ci.m_parent ∧
      ci'.m_data = ci.m_data := by
  have hlt : c < md.items.length := lt_of_getElem?_eq_some _ _ _ hc
  by_cases hca : c = a
  · subst hca
    rw [ha] at hc
    injection hc with hc
    subst hc
    exact ⟨itA, getElem?_set_append_self _ _ _ _ hlt, hpar, hdata⟩
  · exact ⟨ci, by rw [getElem?_set_append_old _ _ _ _ _ hlt hca]; exact hc, rfl, rfl⟩

/-- The invariant is kept when one item is rewritten without touching its
data or parent pointer, its new children being some of the old ones and some
of the items created for it. -/
theorem TreeInv_update (qt : Qt) (md : DS3BrowserModel) (a : Nat) (it itA : DS3BrowserItem)
    (New : List DS3BrowserItem) (W : List QModelIndex) (R : List GetBucketRequest)
    (hinv : TreeInv qt md) (ha : md.items[a]? = some it)
    (hdata : itA.m_data = it.m_data) (hpar : itA.m_parent = it.m_parent)
    (hsub : itA.m_children.Sublist (it.m_children ++ List.range' md.items.length New.length))
    (hnew : ∀ x ∈ New, x.m_children = [] ∧ x.m_parent = some a)
    (hW : ∀ w ∈ W, w.isValid = false)
    (hroot : a = md.m_rootItem → ∀ x ∈ New, x.GetData qt KIND ≠ QVariant.str BREAK) :
    TreeInv qt ⟨md.items.set a itA ++ New, md.m_rootItem, W, R⟩ := by
  have hlt : a < md.items.length := lt_of_getElem?_eq_some _ _ _ ha
  have hmemA : ∀ c ∈ itA.m_children,
      c ∈ it.m_children ∨ (md.items.length ≤ c ∧ c < md.items.length + New.length) := by
    intro c hc
    have := hsub.subset hc
    rw [List.mem_append, mem_range'_iff] at this
    exact this
  have hnewlook : ∀ c, md.items.length ≤ c → c < md.items.length + New.length →
      ∃ x, (md.items.set a itA ++ New)[c]? = some x ∧ x ∈ New := by
    intro c h1 h2
    obtain ⟨k, rfl⟩ : ∃ k, c = md.items.length + k := ⟨c - md.items.length, by omega⟩
    have hk : k < New.length := by omega
    refine ⟨New[k], ?_, List.getElem_mem _⟩
    rw [getElem?_set_append_new]
    exact List.getElem?_eq_getElem hk
  constructor
  · show md.m_rootItem < (md.items.set a itA ++ New).length
    have := hinv.root_live
    simp only [List.length_append, List.length_set]
    omega
  · intro itr hr
    change (md.items.set a itA ++ New)[md.m_rootItem]? = some itr at hr
    obtain ⟨r0, hr0⟩ : ∃ r0, md.items[md.m_rootItem]? = some r0 :=
      ⟨_, List.getElem?_eq_getElem hinv.root_live⟩
    obtain ⟨r1, h1, h2, -⟩ := lookup_old md a it itA New ha hdata hpar _ _ hr0
    rw [h1] at hr
    injection hr with hr
    subst hr
    rw [h2]
    exact hinv.root_parent _ hr0
  · intro b itb c hb hc
    change (md.items.set a itA ++ New)[b]? = some itb at hb
    show ∃ ci, (md.items.set a itA ++ New)[c]? = some ci ∧ ci.m_parent = some b
    rcases getElem?_update_cases _ _ _ _ _ _ hb with ⟨hba, -, hy⟩ | ⟨hba, hbl, hy⟩ | ⟨hbl, hy⟩
    · subst hy
      subst hba
      rcases hmemA c hc with hold | ⟨h1, h2⟩
      · obtain ⟨ci, hci, hcp⟩ := hinv.child_parent b it c ha hold
        obtain ⟨ci', h1, h2, -⟩ := lookup_old md b it itb New ha hdata hpar _ _ hci
        exact ⟨ci', h1, by rw [h2]; exact hcp⟩
      · obtain ⟨x, hx, hxm⟩ := hnewlook c h1 h2
        exact ⟨x, hx, (hnew x hxm).2⟩
    · obtain ⟨ci, hci, hcp⟩ := hinv.child_parent b itb c hy hc
      obtain ⟨ci', h1, h2, -⟩ := lookup_old md a it itA New ha hdata hpar _ _ hci
      exact ⟨ci', h1, by rw [h2]; exact hcp⟩
    · have hm : itb ∈ New := List.getElem?_mem hy
      rw [(hnew itb hm).1] at hc
      cases hc
  · intro b itb hb
    change (md.items.set a itA ++ New)[b]? = some itb at hb
    rcases getElem?_update_cases _ _ _ _ _ _ hb with ⟨hba, -, hy⟩ | ⟨hba, hbl, hy⟩ | ⟨hbl, hy⟩
    · subst hy
      refine List.Nodup.sublist hsub ?_
      rw [List.nodup_append]
      refine ⟨hinv.nodup a it ha, List.nodup_range' _ _, ?_⟩
      intro c hc1 hc2
      have := child_lt qt md hinv a it ha c hc1
      rw [mem_range'_iff] at hc2
      omega
    · exact hinv.nodup b itb hy
    · have hm : itb ∈ New := List.getElem?_mem hy
      rw [(hnew itb hm).1]
      exact List.nodup_nil
  · exact hW
  · intro itr c hr hc
    change (md.items.set a itA ++ New)[md.m_rootItem]? = some itr at hr
    rcases getElem?_update_cases _ _ _ _ _ _ hr with ⟨hba, -, hy⟩ | ⟨hba, hbl, hy⟩ | ⟨hbl, hy⟩
    · subst hy
      rcases hmemA c hc with hold | ⟨h1, h2⟩
      · have hcl := child_lt qt md hinv a it ha c hold
        rw [isBreak_update qt md a it itr New W R ha hdata c hcl]
        exact hinv.root_children it c (by rw [hba]; exact ha) hold
      · obtain ⟨k, rfl⟩ : ∃ k, c = md.items.length + k := ⟨c - md.items.length, by omega⟩
        have hk : k < New.length := by omega
        rw [isBreak_new qt md a itr New W R k New[k] (List.getElem?_eq_getElem hk)]
        have := hroot hba.symm New[k] (List.getElem_mem _)
        simpa using this
    · have hcl := child_lt qt md hinv _ itr hy c hc
      rw [isBreak_update qt md a it itA New W R ha hdata c hcl]
      exact hinv.root_children itr c hy hc
    · have := hinv.root_live
      omega


/-! ## Indexes -/

theorem invalid_not_valid : QModelIndex.invalid.isValid = false := by decide

theorem deref_itemOrRoot (md : DS3BrowserModel) (p : QModelIndex) (pit : DS3BrowserItem)
    (h : md.deref (md.itemOrRoot p) = some pit) :
    ∃ pa, md.itemOrRoot p = some pa ∧ md.items[pa]? = some pit := by
  cases hp : md.itemOrRoot p with
  | none => rw [hp] at h; simp [deref] at h
  | some pa => rw [hp] at h; exact ⟨pa, rfl, by simpa [deref] using h⟩

/-- What a valid result of `index` is made of. -/
theorem index_valid (md : DS3BrowserModel) (row column : Int) (p x : QModelIndex)
    (h : md.index row column p = some x) (hx : x.isValid = true) :
    ∃ pa pit c, md.itemOrRoot p = some pa ∧ md.items[pa]? = some pit ∧ 0 ≤ row ∧
      0 ≤ column ∧ p.c ≤ 0 ∧ pit.m_children[row.toNat]? = some c ∧
      x = createIndex row column (some c) := by
  unfold index at h
  split at h
  · cases h
  · injection h with h
    subst h
    simp [invalid_not_valid] at hx
  · rename_i hhas
    split at h
    · cases h
    · rename_i pit hpit
      obtain ⟨pa, hpa, hpit2⟩ := deref_itemOrRoot md p pit hpit
      simp only at h
      split at h
      · rename_i hsome
        injection h with h
        unfold hasIndex at hhas
        split at hhas
        · simp at hhas
        · rename_i hrc
          push_neg at hrc
          split at hhas
          · cases hhas
          · rename_i rc hrceq
            have hpc : p.c ≤ 0 := by
              by_contra hc
              push_neg at hc
              simp only [rowCount, hc, if_true] at hrceq
              injection hrceq with hrceq
              subst hrceq
              simp only [if_neg (not_lt.mpr hrc.1)] at hhas
              simp at hhas
            cases hch : pit.GetChild row with
            | none => rw [hch] at hsome; simp at hsome
            | some c =>
              refine ⟨pa, pit, c, hpa, hpit2, hrc.1, hrc.2, hpc, ?_, ?_⟩
              · simpa [DS3BrowserItem.GetChild, QList.value, hrc.1] using hch
              · rw [← h, hch]
      · injection h with h
        subst h
        simp [invalid_not_valid] at hx

/-- An index of the tree is the invalid index or points to a live item
other than the root, which sits at row `r` among the children of the item
its `m_parent` points to. -/
theorem IsIndex_cases (qt : Qt) (md : DS3BrowserModel) (hinv : TreeInv qt md)
    (p : QModelIndex) (hp : IsIndex md p) :
    p = QModelIndex.invalid ∨
    (p.isValid = true ∧ ∃ a it pa pit, p.i = some a ∧ md.items[a]? = some it ∧
      a ≠ md.m_rootItem ∧ it.m_parent = some pa ∧ md.items[pa]? = some pit ∧
      0 ≤ p.r ∧ pit.m_children[p.r.toNat]? = some a ∧ p.m = true ∧ 0 ≤ p.c) := by
  cases hp with
  | root => exact Or.inl rfl
  | child q x row column hq hidx hx =>
    right
    refine ⟨hx, ?_⟩
    obtain ⟨pa, pit, c, hpa, hpit, hrow, hcol, -, hc, hxeq⟩ :=
      index_valid md row column q p hidx hx
    obtain ⟨ci, hci, hcp⟩ := hinv.child_parent pa pit c hpit (List.getElem?_mem hc)
    subst hxeq
    refine ⟨c, ci, pa, pit, rfl, hci, ?_, hcp, hpit, hrow, hc, rfl, hcol⟩
    intro hroot
    subst hroot
    have := hinv.root_parent ci hci
    rw [this] at hcp
    cases hcp

theorem TreeInv_new (qt : Qt) : TreeInv qt DS3BrowserModel.new := by
  constructor
  · decide
  · intro it h
    have : it = DS3BrowserItem.new column_names "" "" none := by
      simp [DS3BrowserModel.new] at h
      exact h.symm
    subst this
    rfl
  · intro a it c h hc
    have ha : a < 1 := lt_of_getElem?_eq_some _ _ _ h
    have : a = 0 := by omega
    subst this
    have : it = DS3BrowserItem.new column_names "" "" none := by
      simp [DS3BrowserModel.new] at h
      exact h.symm
    subst this
    simp [DS3BrowserItem.new] at hc
  · intro a it h
    have ha : a < 1 := lt_of_getElem?_eq_some _ _ _ h
    have : a = 0 := by omega
    subst this
    have : it = DS3BrowserItem.new column_names "" "" none := by
      simp [DS3BrowserModel.new] at h
      exact h.symm
    subst this
    simp [DS3BrowserItem.new]
  · intro w hw
    simp [DS3BrowserModel.new] at hw
  · intro it c h hc
    have : it = DS3BrowserItem.new column_names "" "" none := by
      simp [DS3BrowserModel.new] at h
      exact h.symm
    subst this
    simp [DS3BrowserItem.new] at hc


/-! ## removeRows, step by step -/

theorem RemoveChild_shape (it it' : DS3BrowserItem) (r : Int)
    (h : it.RemoveChild r = some it') :
    ∃ sub, sub.Sublist it.m_children ∧ it' = { it with m_children := sub } := by
  unfold DS3BrowserItem.RemoveChild at h
  split at h
  · split at h
    · injection h with h
      exact ⟨_, List.eraseIdx_sublist _ _, h.symm⟩
    · cases h
  · injection h with h
    exact ⟨it.m_children, List.Sublist.refl _, by rw [← h]⟩

theorem removeRowsLoop_shape (a : Nat) (row : Int) (n : Nat) :
    ∀ (md md' : DS3BrowserModel) (it : DS3BrowserItem) (i : Int),
      md.items[a]? = some it → md.removeRowsLoop (some a) row n i = some md' →
      ∃ sub, sub.Sublist it.m_children ∧
        md' = { md with items := md.items.set a { it with m_children := sub } } := by
  induction n with
  | zero =>
    intro md md' it i ha h
    simp only [removeRowsLoop] at h
    injection h with h
    refine ⟨it.m_children, List.Sublist.refl _, ?_⟩
    rw [← h]
    have : md.items.set a it = md.items := set_self_of_getElem? _ _ _ ha
    simp [this]
  | succ n ih =>
    intro md md' it i ha h
    have hlt : a < md.items.length := lt_of_getElem?_eq_some _ _ _ ha
    simp only [removeRowsLoop, ha] at h
    split at h
    · cases h
    · rename_i it1 hit1
      obtain ⟨sub1, hsub1, hit1eq⟩ := RemoveChild_shape it it1 _ hit1
      have ha1 : ({ md with items := md.items.set a it1 } : DS3BrowserModel).items[a]? = some it1 :=
        getElem?_set_self _ _ _ hlt
      obtain ⟨sub, hsub, hmd⟩ := ih _ md' it1 (i + 1) ha1 h
      refine ⟨sub, ?_, ?_⟩
      · rw [hit1eq] at hsub
        exact hsub.trans hsub1
      · rw [hmd, hit1eq]
        simp [List.set_set]

/-- What `removeRows` can do to the state: nothing, or drop some of the
children of the parent item. -/
theorem removeRows_shape (md md' : DS3BrowserModel) (row count : Int) (p : QModelIndex)
    (b : Bool) (h : md.removeRows row count p = some (b, md')) :
    md' = md ∨ ∃ a it sub, p.i = some a ∧ md.items[a]? = some it ∧
      sub.Sublist it.m_children ∧
      md' = { md with items := md.items.set a { it with m_children := sub } } := by
  unfold removeRows at h
  split at h
  · injection h with h
    left
    exact (Prod.mk.inj h).2.symm
  · split at h
    · cases h
    · split at h
      · injection h with h
        left
        exact (Prod.mk.inj h).2.symm
      · rename_i hc _ rc hrc hgt
        split at h
        · cases h
        · rename_i md'' hloop
          injection h with h
          have h2 := (Prod.mk.inj h).2
          subst h2
          have hn : count.toNat = (count.toNat - 1) + 1 := by
            push_neg at hc
            have := hc.2
            omega
          cases hpi : IndexToItem p with
          | none =>
            rw [hpi, hn] at hloop
            simp [removeRowsLoop] at hloop
          | some a =>
            rw [hpi] at hloop
            cases hit : md.items[a]? with
            | none =>
              rw [hn] at hloop
              simp [removeRowsLoop, hit] at hloop
            | some it =>
              right
              obtain ⟨sub, hsub, hmd⟩ := removeRowsLoop_shape a row _ md md'' it 0 hit hloop
              exact ⟨a, it, sub, hpi, hit, hsub, hmd⟩

/-- The removal of one row that exists, through an index of column 0. -/
theorem removeRow_one (md : DS3BrowserModel) (p : QModelIndex) (a : Nat)
    (it : DS3BrowserItem) (row : Int) (hv : p.isValid = true) (hi : p.i = some a)
    (ha : md.items[a]? = some it) (h0 : 0 ≤ row) (h1 : row < it.m_children.length)
    (hc : p.c ≤ 0) :
    md.removeRow row p = some
      (true, { md with
        items := md.items.set a ({ it with m_children := it.m_children.eraseIdx row.toNat }) }) := by
  have hio : md.itemOrRoot p = some a := itemOrRoot_valid md p a hv hi
  have hg : ¬ (row < 0 ∨ (1 : Int) ≤ 0) := by omega
  have hrc : md.rowCount p = some (it.m_children.length : Int) := by
    simp [rowCount, not_lt.mpr hc, hio, deref, ha, DS3BrowserItem.GetChildCount]
  have hgt : ¬ (intAdd row 1 > (it.m_children.length : Int)) := by
    have := intAdd_le row 1 (by omega)
    omega
  simp only [removeRow, removeRows, hg, if_false, hrc, hgt, IndexToItem, hi]
  have : (1 : Int).toNat = 0 + 1 := rfl
  rw [this]
  simp only [removeRowsLoop, ha, DS3BrowserItem.RemoveChild, intAdd_zero, h1, h0, if_true]

/-- The removal of one row through any valid index returns, and at most
drops children of the item. -/
theorem removeRow_returns (md : DS3BrowserModel) (p : QModelIndex) (a : Nat)
    (it : DS3BrowserItem) (row : Int) (hv : p.isValid = true) (hi : p.i = some a)
    (ha : md.items[a]? = some it) (h0 : 0 ≤ row) :
    ∃ b sub, sub.Sublist it.m_children ∧
      md.removeRow row p = some
        (b, { md with items := md.items.set a ({ it with m_children := sub }) }) := by
  have hio : md.itemOrRoot p = some a := itemOrRoot_valid md p a hv hi
  have hg : ¬ (row < 0 ∨ (1 : Int) ≤ 0) := by omega
  have hself : ({ md with items := md.items.set a ({ it with m_children := it.m_children }) } :
      DS3BrowserModel) = md := by
    have : md.items.set a it = md.items := set_self_of_getElem? _ _ _ ha
    simp [this]
  obtain ⟨rc, hrc⟩ : ∃ rc, md.rowCount p = some rc := by
    unfold rowCount
    split
    · exact ⟨_, rfl⟩
    · simp [hio, deref, ha]
  by_cases hgt : intAdd row 1 > rc
  · refine ⟨false, it.m_children, List.Sublist.refl _, ?_⟩
    simp only [removeRow, removeRows, hg, if_false, hrc, hgt, if_true, hself]
  · have : (1 : Int).toNat = 0 + 1 := rfl
    cases hrm : it.RemoveChild row with
    | none =>
      unfold DS3BrowserItem.RemoveChild at hrm
      split at hrm
      · simp [h0] at hrm
      · cases hrm
    | some it' =>
      obtain ⟨sub, hsub, hit'⟩ := RemoveChild_shape it it' row hrm
      refine ⟨true, sub, hsub, ?_⟩
      simp only [removeRow, removeRows, hg, if_false, hrc, hgt, IndexToItem, hi]
      rw [this]
      simp only [removeRowsLoop, ha, intAdd_zero, hrm, hit']

/-! ## fetchMore, step by step -/

theorem pageBreakItem_spec (qt : Qt) (md : DS3BrowserModel) (it : DS3BrowserItem)
    (hch : ∀ c ∈ it.m_children, c < md.items.length) :
    ∃ pb, pageBreakItem qt md it = some pb ∧
      (pb.isSome = true → it.m_children ≠ [] ∧
        ∃ c, it.m_children.getLast? = some c ∧ isBreak qt md c = true) ∧
      (pb.isSome = false → ∀ c, it.m_children.getLast? = some c → isBreak qt md c = false) := by
  unfold pageBreakItem
  by_cases hne : it.m_children = []
  · refine ⟨none, ?_, ?_, ?_⟩
    · simp [DS3BrowserItem.GetChildCount, hne]
    · intro h; simp at h
    · intro _ c hc; simp [hne] at hc
  · have hpos : 0 < it.m_children.length := List.length_pos.mpr hne
    have hrow : (it.GetChildCount - 1 : Int) ≥ 0 := by
      simp only [DS3BrowserItem.GetChildCount]; omega
    have htn : (it.GetChildCount - 1 : Int).toNat = it.m_children.length - 1 := by
      simp only [DS3BrowserItem.GetChildCount]; omega
    obtain ⟨c, hc⟩ : ∃ c, it.m_children[it.m_children.length - 1]? = some c :=
      ⟨_, List.getElem?_eq_getElem (by omega)⟩
    have hlast : it.m_children.getLast? = some c := by
      rw [List.getLast?_eq_getElem?]; exact hc
    have hget : it.GetChild (it.GetChildCount - 1) = some c := by
      simp only [DS3BrowserItem.GetChild, QList.value, if_pos (ge_iff_le.mp hrow), htn, hc]
    have hcl : c < md.items.length := hch c (List.getElem?_mem hc)
    obtain ⟨ci, hci⟩ : ∃ ci, md.items[c]? = some ci := ⟨_, List.getElem?_eq_getElem hcl⟩
    simp only [if_pos hrow, hget, deref, hci]
    by_cases hk : ci.GetData qt KIND = QVariant.str BREAK
    · refine ⟨some c, by simp [hk], ?_, ?_⟩
      · intro _
        exact ⟨hne, c, hlast, by simp [isBreak, hci, hk]⟩
      · intro h; simp at h
    · refine ⟨none, by simp [hk], ?_, ?_⟩
      · intro h; simp at h
      · intro _ c' hc'
        rw [hlast] at hc'
        injection hc' with hc'
        subst hc'
        simp [isBreak, hci, hk]

theorem currentCommonPrefixNames_congr (qt : Qt) (m1 m2 : DS3BrowserModel) (cs : List Nat)
    (h : ∀ c ∈ cs, (m1.items[c]?).map (fun x => x.m_data)
      = (m2.items[c]?).map (fun x => x.m_data)) :
    currentCommonPrefixNames qt m1 cs = currentCommonPrefixNames qt m2 cs := by
  induction cs with
  | nil => rfl
  | cons c cs ih =>
    have hc := h c (by simp)
    have ih2 := ih (fun x hx => h x (by simp [hx]))
    cases h1 : m1.items[c]? with
    | none =>
      cases h2 : m2.items[c]? with
      | none => simp [currentCommonPrefixNames, h1, h2]
      | some y => rw [h1, h2] at hc; simp at hc
    | some x =>
      cases h2 : m2.items[c]? with
      | none => rw [h1, h2] at hc; simp at hc
      | some y =>
        rw [h1, h2] at hc
        simp only [Option.map_some', Option.some.injEq] at hc
        simp only [currentCommonPrefixNames, h1, h2, ih2, GetData_congr qt x y hc]

/-- The state `fetchMore` leaves behind on a valid index whose item and
children exist. -/
theorem fetchMore_valid (qt : Qt) (client : Client) (md : DS3BrowserModel) (p : QModelIndex)
    (a : Nat) (it : DS3BrowserItem) (hv : p.isValid = true) (hi : p.i = some a)
    (ha : md.items[a]? = some it) (hch : ∀ c ∈ it.m_children, c < md.items.length) :
    ∃ pb itA, pageBreakItem qt md it = some pb ∧
      md.fetchMore qt client p = some
        ⟨md.items.set a itA ++ createdItems qt client it (some a) (folderChildNames qt md it),
          md.m_rootItem, md.watchers, md.requests ++ [requestFor qt it]⟩ ∧
      itA.m_data = it.m_data ∧ itA.m_parent = it.m_parent ∧ itA.m_canFetchMore = false ∧
      itA.m_children.Sublist (it.m_children ++ List.range' md.items.length
        (createdItems qt client it (some a) (folderChildNames qt md it)).length) ∧
      (p.c ≤ 0 → itA.m_children =
        (if pb.isSome = true then
          (it.m_children ++ List.range' md.items.length
            (createdItems qt client it (some a) (folderChildNames qt md it)).length).eraseIdx
              (it.m_children.length - 1)
        else it.m_children ++ List.range' md.items.length
            (createdItems qt client it (some a) (folderChildNames qt md it)).length)) := by
  have hlt : a < md.items.length := lt_of_getElem?_eq_some _ _ _ ha
  have hio : md.itemOrRoot p = some a := itemOrRoot_valid md p a hv hi
  obtain ⟨pb, hpb, hpb1, -⟩ := pageBreakItem_spec qt md it hch
  have h1 := modifyItem_some md a it (fun p => { p with m_fetching := true }) ha
  have hio1 : ({ md with items := md.items.set a { it with m_fetching := true } } :
      DS3BrowserModel).itemOrRoot p = some a := itemOrRoot_valid _ p a hv hi
  have hcur1 : currentCommonPrefixNames qt
      ({ md with items := md.items.set a { it with m_fetching := true } } : DS3BrowserModel)
      it.m_children = some (folderChildNames qt md it) := by
    rw [currentCommonPrefixNames_congr qt _ md it.m_children, currentCommonPrefixNames_eq qt md
      it.m_children hch]
    · rfl
    · intro c hc
      by_cases hca : c = a
      · subst hca
        simp only [getElem?_set_self _ _ _ hlt, ha, Option.map_some']
      · simp only [List.getElem?_set, if_neg (Ne.symm hca)]
  generalize hcur : folderChildNames qt md it = cur at hcur1 ⊢
  have h2 := FetchMoreObjects_eq qt client _ p a { it with m_fetching := true } cur hio1
    (getElem?_set_self _ _ _ hlt) hcur1
  simp only [List.set_set, List.length_set] at h2
  have hNew : createdItems qt client { it with m_fetching := true } (some a) cur
      = createdItems qt client it (some a) cur := rfl
  have hpfx : listingPrefix qt { it with m_fetching := true } = listingPrefix qt it := rfl
  rw [hNew, hpfx] at h2
  generalize hN : createdItems qt client it (some a) cur = New at h2 ⊢
  simp only [fetchMore, hio, deref, ha, Option.bind_eq_bind, Option.some_bind, hpb, h1, hv,
    if_true, h2, requestFor]
  generalize client.GetBucket _ = resp
  by_cases hsome : pb.isSome = true
  · obtain ⟨hne, -⟩ := hpb1 hsome
    have hpos : 0 < it.m_children.length := List.length_pos.mpr hne
    have h0 : (0 : Int) ≤ it.GetChildCount - 1 := by
      simp only [DS3BrowserItem.GetChildCount]; omega
    have htn : (it.GetChildCount - 1 : Int).toNat = it.m_children.length - 1 := by
      simp only [DS3BrowserItem.GetChildCount]; omega
    obtain ⟨b, sub, hsub, hrm⟩ := removeRow_returns
      (⟨md.items.set a
          { m_canFetchMore := it.m_canFetchMore, m_fetching := true,
            m_children := it.m_children ++ List.range' md.items.length New.length,
            m_data := it.m_data, m_bucketName := it.m_bucketName, m_maxKeys := resp.max_keys,
            m_nextMarker := resp.next_marker.getD it.m_nextMarker, m_parent := it.m_parent,
            m_pfx := it.m_pfx } ++ New,
        md.m_rootItem, md.watchers,
        md.requests ++ [⟨it.m_bucketName, listingPrefix qt it, "/", it.m_nextMarker,
          it.m_maxKeys⟩]⟩ : DS3BrowserModel)
      p a _ (it.GetChildCount - 1) hv hi (getElem?_set_append_self _ _ _ _ hlt) h0
    refine ⟨pb,
      { m_canFetchMore := false, m_fetching := true, m_children := sub,
        m_data := it.m_data, m_bucketName := it.m_bucketName, m_maxKeys := resp.max_keys,
        m_nextMarker := resp.next_marker.getD it.m_nextMarker, m_parent := it.m_parent,
        m_pfx := it.m_pfx }, rfl, ?_, rfl, rfl, rfl, hsub, ?_⟩
    · rw [if_pos hsome, hrm]
      simp only [Option.map_some', Option.some_bind, set_set_append _ _ _ _ _ hlt]
      rw [modifyItem_append _ _ _ _ _ _ _ _ (getElem?_set_self _ _ _ hlt), List.set_set]
    · intro hc
      have hone := removeRow_one
        (⟨md.items.set a
            { m_canFetchMore := it.m_canFetchMore, m_fetching := true,
              m_children := it.m_children ++ List.range' md.items.length New.length,
              m_data := it.m_data, m_bucketName := it.m_bucketName, m_maxKeys := resp.max_keys,
              m_nextMarker := resp.next_marker.getD it.m_nextMarker, m_parent := it.m_parent,
              m_pfx := it.m_pfx } ++ New,
          md.m_rootItem, md.watchers,
          md.requests ++ [⟨it.m_bucketName, listingPrefix qt it, "/", it.m_nextMarker,
            it.m_maxKeys⟩]⟩ : DS3BrowserModel)
        p a _ (it.GetChildCount - 1) hv hi (getElem?_set_append_self _ _ _ _ hlt) h0
        (by simp only [DS3BrowserItem.GetChildCount, List.length_append]; omega) hc
      rw [hrm] at hone
      injection hone with hone
      have hitems := congrArg (fun x => x.2.items[a]?) hone
      simp only [set_set_append _ _ _ _ _ hlt, getElem?_set_append_self _ _ _ _ hlt,
        Option.some.injEq] at hitems
      have hch2 := congrArg DS3BrowserItem.m_children hitems
      simp only [htn] at hch2
      simp only [hsome, if_true]
      exact hch2
  · refine ⟨pb,
      { m_canFetchMore := false, m_fetching := true,
        m_children := it.m_children ++ List.range' md.items.length New.length,
        m_data := it.m_data, m_bucketName := it.m_bucketName, m_maxKeys := resp.max_keys,
        m_nextMarker := resp.next_marker.getD it.m_nextMarker, m_parent := it.m_parent,
        m_pfx := it.m_pfx }, rfl, ?_, rfl, rfl, rfl, List.Sublist.refl _, ?_⟩
    · rw [if_neg hsome]
      simp only [Option.some_bind]
      rw [modifyItem_append _ _ _ _ _ _ _ _ (getElem?_set_self _ _ _ hlt), List.set_set]
    · intro _
      simp [hsome]

theorem GetData_KIND (qt : Qt) (v0 v1 v2 v4 : QVariant) (k b pf : String) (pa : Ptr) :
    (DS3BrowserItem.new [v0, v1, v2, .str k, v4] b pf pa).GetData qt KIND = QVariant.str k := by
  simp [DS3BrowserItem.GetData, DS3BrowserItem.new, QList.value, KIND, SIZE]

theorem createdItems_props (qt : Qt) (client : Client) (it : DS3BrowserItem) (pa : Ptr)
    (cur : List String) :
    ∀ x ∈ createdItems qt client it pa cur, x.m_children = [] ∧ x.m_parent = pa := by
  intro x hx
  simp only [createdItems, newFolders, newObjects, pageBreak, List.mem_append,
    List.mem_filterMap] at hx
  rcases hx with (⟨y, -, hy⟩ | ⟨y, -, hy⟩) | hx
  · split at hy
    · cases hy
    · injection hy with hy; subst hy; exact ⟨rfl, rfl⟩
  · split at hy
    · cases hy
    · injection hy with hy; subst hy; exact ⟨rfl, rfl⟩
  · split at hx
    · simp only [List.mem_singleton] at hx; subst hx; exact ⟨rfl, rfl⟩
    · cases hx

theorem createdItems_kinds (qt : Qt) (client : Client) (it : DS3BrowserItem) (pa : Ptr)
    (cur : List String) :
    ∃ FO B, createdItems qt client it pa cur = FO ++ B ∧
      (∀ x ∈ FO, x.GetData qt KIND ≠ QVariant.str BREAK) ∧ B.length ≤ 1 := by
  refine ⟨_, _, rfl, ?_, ?_⟩
  · intro x hx
    simp only [newFolders, newObjects, List.mem_append, List.mem_filterMap] at hx
    rcases hx with ⟨y, -, hy⟩ | ⟨y, -, hy⟩
    · split at hy
      · cases hy
      · injection hy with hy; subst hy
        rw [GetData_KIND]; decide
    · split at hy
      · cases hy
      · injection hy with hy; subst hy
        rw [GetData_KIND]; decide
  · split <;> simp

/-- The state `fetchMore` leaves behind on an index that is not valid, when
the root has no child of kind Break. -/
theorem fetchMore_root (qt : Qt) (client : Client) (md : DS3BrowserModel) (p : QModelIndex)
    (it : DS3BrowserItem) (hv : p.isValid = false) (ha : md.items[md.m_rootItem]? = some it)
    (hch : ∀ c ∈ it.m_children, c < md.items.length)
    (hnb : ∀ c ∈ it.m_children, isBreak qt md c = false) :
    md.fetchMore qt client p = some
      ⟨md.items.set md.m_rootItem { it with m_fetching := true, m_canFetchMore := false },
        md.m_rootItem, md.watchers ++ [p], md.requests⟩ := by
  have hlt : md.m_rootItem < md.items.length := lt_of_getElem?_eq_some _ _ _ ha
  have hio : md.itemOrRoot p = some md.m_rootItem := itemOrRoot_invalid md p hv
  obtain ⟨pb, hpb, hpb1, -⟩ := pageBreakItem_spec qt md it hch
  have hnone : pb.isSome = false := by
    cases hs : pb.isSome with
    | false => rfl
    | true =>
      obtain ⟨-, c, hc, hbr⟩ := hpb1 hs
      have := hnb c (List.mem_of_mem_getLast? hc)
      rw [this] at hbr
      cases hbr
  have h1 := modifyItem_some md md.m_rootItem it (fun p => { p with m_fetching := true }) ha
  simp only [fetchMore, hio, deref, ha, Option.bind_eq_bind, Option.some_bind, hpb, h1, hv,
    hnone, FetchMoreBuckets]
  have h2 := modifyItem_append (md.items.set md.m_rootItem { it with m_fetching := true }) []
    md.m_rootItem _ (fun p => { p with m_canFetchMore := false }) md.m_rootItem
    (md.watchers ++ [p]) md.requests (getElem?_set_self _ _ _ hlt)
  simp only [List.append_nil, List.set_set] at h2
  simpa using h2


/-! ## The invariant holds in every reachable state -/

theorem TreeInv_update_nil (qt : Qt) (md : DS3BrowserModel) (a : Nat) (it itA : DS3BrowserItem)
    (W : List QModelIndex) (R : List GetBucketRequest)
    (hinv : TreeInv qt md) (ha : md.items[a]? = some it)
    (hdata : itA.m_data = it.m_data) (hpar : itA.m_parent = it.m_parent)
    (hsub : itA.m_children.Sublist it.m_children)
    (hW : ∀ w ∈ W, w.isValid = false) :
    TreeInv qt ⟨md.items.set a itA, md.m_rootItem, W, R⟩ := by
  have := TreeInv_update qt md a it itA [] W R hinv ha hdata hpar (by simpa using hsub)
    (by intro x hx; cases hx) hW (by intro _ x hx; cases hx)
  simpa using this

theorem children_lt (qt : Qt) (md : DS3BrowserModel) (hinv : TreeInv qt md) (a : Nat)
    (it : DS3BrowserItem) (ha : md.items[a]? = some it) :
    ∀ c ∈ it.m_children, c < md.items.length :=
  fun c hc => child_lt qt md hinv a it ha c hc

theorem root_item (qt : Qt) (md : DS3BrowserModel) (hinv : TreeInv qt md) :
    ∃ it, md.items[md.m_rootItem]? = some it :=
  ⟨_, List.getElem?_eq_getElem hinv.root_live⟩

theorem fetchMore_TreeInv (qt : Qt) (client : Client) (md md' : DS3BrowserModel)
    (p : QModelIndex) (hinv : TreeInv qt md) (hp : IsIndex md p)
    (h : md.fetchMore qt client p = some md') : TreeInv qt md' := by
  rcases IsIndex_cases qt md hinv p hp with hroot | ⟨hv, a, it, pa, pit, hi, ha, hne, -⟩
  · subst hroot
    obtain ⟨it, hit⟩ := root_item qt md hinv
    rw [fetchMore_root qt client md _ it invalid_not_valid hit (children_lt qt md hinv _ it hit)
      (fun c hc => hinv.root_children it c hit hc)] at h
    injection h with h
    subst h
    refine TreeInv_update_nil qt md _ it _ _ _ hinv hit rfl rfl (List.Sublist.refl _) ?_
    intro w hw
    rcases List.mem_append.mp hw with hw | hw
    · exact hinv.watchers_root w hw
    · simp only [List.mem_singleton] at hw
      subst hw
      exact invalid_not_valid
  · obtain ⟨pb, itA, -, hfm, hdata, hpar, -, hsub, -⟩ :=
      fetchMore_valid qt client md p a it hv hi ha (children_lt qt md hinv a it ha)
    rw [hfm] at h
    injection h with h
    subst h
    refine TreeInv_update qt md a it itA _ _ _ hinv ha hdata hpar hsub
      (createdItems_props qt client it (some a) _) hinv.watchers_root ?_
    intro h; exact absurd h hne

theorem Refresh_TreeInv (qt : Qt) (md md' : DS3BrowserModel) (p : QModelIndex)
    (hinv : TreeInv qt md) (h : md.Refresh p = some md') : TreeInv qt md' := by
  obtain ⟨a, it, -, ha, hmd⟩ := modifyItem_eq_some md md' _ _ h
  subst hmd
  exact TreeInv_update_nil qt md a it _ _ _ hinv ha rfl rfl (List.nil_sublist _)
    hinv.watchers_root

theorem removeRows_TreeInv (qt : Qt) (md md' : DS3BrowserModel) (row count : Int)
    (p : QModelIndex) (b : Bool) (hinv : TreeInv qt md)
    (h : md.removeRows row count p = some (b, md')) : TreeInv qt md' := by
  rcases removeRows_shape md md' row count p b h with h | ⟨a, it, sub, -, ha, hsub, hmd⟩
  · subst h; exact hinv
  · subst hmd
    exact TreeInv_update_nil qt md a it _ _ _ hinv ha rfl rfl hsub hinv.watchers_root

theorem appendBucket_eq (qt : Qt) (md : DS3BrowserModel) (a : Nat) (it : DS3BrowserItem)
    (owner : String) (rawBucket : ds3_bucket) (ha : md.items[a]? = some it) :
    appendBucket qt (some a) owner md rawBucket = some
      ⟨md.items.set a { it with m_children := it.m_children ++ [md.items.length] }
        ++ [DS3BrowserItem.new [.str rawBucket.name, .str owner, .str "--", .str BUCKET,
            .str (qt.convertTimestamp rawBucket.creation_date)] rawBucket.name "" (some a)],
        md.m_rootItem, md.watchers, md.requests⟩ := by
  simp only [appendBucket, allocAll]
  rw [modifyItem_append _ _ _ _ _ _ _ _ ha]
  rfl

theorem foldlM_preserves {α : Type} (P : DS3BrowserModel → Prop)
    (f : DS3BrowserModel → α → Option DS3BrowserModel)
    (hstep : ∀ md x md', P md → f md x = some md' → P md') :
    ∀ (xs : List α) (md md' : DS3BrowserModel), P md → xs.foldlM f md = some md' → P md' := by
  intro xs
  induction xs with
  | nil =>
    intro md md' hP h
    simp only [List.foldlM_nil] at h
    injection h with h
    subst h
    exact hP
  | cons x xs ih =>
    intro md md' hP h
    simp only [List.foldlM_cons, Option.bind_eq_bind] at h
    cases hx : f md x with
    | none => rw [hx] at h; simp at h
    | some md1 =>
      rw [hx] at h
      simp only [Option.some_bind] at h
      exact ih md1 md' (hstep md x md1 hP hx) h

theorem appendBucket_TreeInv (qt : Qt) (r : Nat) (W : List QModelIndex) (owner : String)
    (md : DS3BrowserModel) (rawBucket : ds3_bucket) (md' : DS3BrowserModel)
    (hP : TreeInv qt md ∧ md.m_rootItem = r ∧ md.watchers = W)
    (h : appendBucket qt (some r) owner md rawBucket = some md') :
    TreeInv qt md' ∧ md'.m_rootItem = r ∧ md'.watchers = W := by
  obtain ⟨hinv, hr, hW⟩ := hP
  subst hr
  obtain ⟨it, hit⟩ := root_item qt md hinv
  rw [appendBucket_eq qt md _ it owner rawBucket hit] at h
  injection h with h
  subst h
  refine ⟨?_, rfl, hW⟩
  refine TreeInv_update qt md _ it _ _ _ _ hinv hit rfl rfl ?_ ?_ hinv.watchers_root ?_
  · simp [List.range'_one]
  · intro x hx
    simp only [List.mem_singleton] at hx
    subst hx
    exact ⟨rfl, rfl⟩
  · intro _ x hx
    simp only [List.mem_singleton] at hx
    subst hx
    rw [GetData_KIND]; decide

theorem HandleGetServiceResponse_TreeInv (qt : Qt) (md md' : DS3BrowserModel) (sender : Nat)
    (response : ds3_get_service_response) (hinv : TreeInv qt md)
    (h : md.HandleGetServiceResponse qt sender response = some md') : TreeInv qt md' := by
  simp only [HandleGetServiceResponse, Option.bind_eq_bind] at h
  cases hw : md.watchers[sender]? with
  | none => rw [hw] at h; simp at h
  | some parent =>
    rw [hw] at h
    simp only [Option.some_bind] at h
    have hpv : parent.isValid = false := hinv.watchers_root parent (List.getElem?_mem hw)
    rw [itemOrRoot_invalid md parent hpv] at h
    cases hf : List.foldlM (appendBucket qt (some md.m_rootItem) response.owner) md
        response.buckets with
    | none => rw [hf] at h; simp at h
    | some md1 =>
      rw [hf] at h
      simp only [Option.some_bind] at h
      obtain ⟨hinv1, hr1, hW1⟩ := foldlM_preserves
        (fun m => TreeInv qt m ∧ m.m_rootItem = md.m_rootItem ∧ m.watchers = md.watchers)
        (appendBucket qt (some md.m_rootItem) response.owner)
        (fun m x m' hP hm => appendBucket_TreeInv qt _ _ response.owner m x m' hP hm)
        response.buckets md md1 ⟨hinv, rfl, rfl⟩ hf
      obtain ⟨a, it, -, ha, hmd⟩ := modifyItem_eq_some _ md' _ _ h
      subst hmd
      refine TreeInv_update_nil qt md1 a it _ _ _ hinv1 ha rfl rfl (List.Sublist.refl _) ?_
      intro w hw2
      exact hinv1.watchers_root w ((List.eraseIdx_sublist _ _).subset hw2)

theorem TreeInv_of_reachable (qt : Qt) (P : QModelIndex → Prop) (md : DS3BrowserModel)
    (h : ReachableVia qt P md) : TreeInv qt md := by
  induction h with
  | init => exact TreeInv_new qt
  | fetchMore client md md' parent _ hp _ hfm ih => exact fetchMore_TreeInv qt client md md' parent ih hp hfm
  | handleGetServiceResponse md md' sender response _ hh ih =>
    exact HandleGetServiceResponse_TreeInv qt md md' sender response ih hh
  | refresh md md' index _ _ hr ih => exact Refresh_TreeInv qt md md' index ih hr
  | removeRows md md' row count parent b _ _ hr ih =>
    exact removeRows_TreeInv qt md md' row count parent b ih hr


/-! ## fetchMore and canFetchMore -/

theorem fetchMore_root_kept (qt : Qt) (client : Client) (md md' : DS3BrowserModel)
    (p : QModelIndex) (hv : p.isValid = false) (h : md.fetchMore qt client p = some md') :
    ∃ it', md'.items[md.m_rootItem]? = some it' ∧ it'.m_canFetchMore = false ∧
      md'.m_rootItem = md.m_rootItem := by
  have hio : md.itemOrRoot p = some md.m_rootItem := itemOrRoot_invalid md p hv
  simp only [fetchMore, hio, Option.bind_eq_bind, Option.bind_eq_some] at h
  obtain ⟨it, hd, pb, hpb, md1, h1, md2, h2, md3, h3, h⟩ := h
  obtain ⟨a1, it1, ha1, -, hmd1⟩ := modifyItem_eq_some _ _ _ _ h1
  have hr2 : md2.m_rootItem = md.m_rootItem := by
    rw [hv] at h2
    simp only [Bool.false_eq_true, if_false] at h2
    injection h2 with h2
    rw [← h2, hmd1]; rfl
  have hr3 : md3.m_rootItem = md.m_rootItem := by
    split at h3
    · cases hrm : md2.removeRow (it.GetChildCount - 1) p with
      | none => rw [hrm] at h3; simp at h3
      | some res =>
        rw [hrm] at h3
        simp only [Option.map_some'] at h3
        injection h3 with h3
        obtain ⟨b, mdr⟩ := res
        simp only at h3
        subst h3
        rcases removeRows_shape md2 _ _ 1 p b hrm with hs | ⟨_, _, _, _, _, _, hs⟩
        · rw [hs]; exact hr2
        · rw [hs]; exact hr2
    · injection h3 with h3
      rw [← h3]; exact hr2
  obtain ⟨a, it3, ha, hit3, hmd'⟩ := modifyItem_eq_some _ _ _ _ h
  injection ha with ha
  subst hmd'
  have hlt := lt_of_getElem?_eq_some _ _ _ hit3
  refine ⟨{ it3 with m_canFetchMore := false }, ?_, rfl, hr3⟩
  rw [ha]
  exact getElem?_set_self _ _ _ hlt

theorem fetchMore_item_kept (qt : Qt) (client : Client) (md md' : DS3BrowserModel)
    (p : QModelIndex) (a : Nat) (hv : p.isValid = true) (hi : p.i = some a)
    (h : md.fetchMore qt client p = some md') :
    ∃ it', md'.items[a]? = some it' ∧ it'.m_canFetchMore = false := by
  have hio : md.itemOrRoot p = some a := itemOrRoot_valid md p a hv hi
  simp only [fetchMore, hio, Option.bind_eq_bind, Option.bind_eq_some] at h
  obtain ⟨it, hd, pb, hpb, md1, h1, md2, h2, md3, h3, h⟩ := h
  obtain ⟨a', it3, ha, hit3, hmd'⟩ := modifyItem_eq_some _ _ _ _ h
  injection ha with ha
  subst hmd'
  have hlt := lt_of_getElem?_eq_some _ _ _ hit3
  refine ⟨{ it3 with m_canFetchMore := false }, ?_, rfl⟩
  rw [ha]
  exact getElem?_set_self _ _ _ hlt

theorem fetchMore_returns (qt : Qt) (client : Client) (md : DS3BrowserModel) (p : QModelIndex)
    (hinv : TreeInv qt md) (hp : IsIndex md p) :
    ∃ md', md.fetchMore qt client p = some md' := by
  rcases IsIndex_cases qt md hinv p hp with hroot | ⟨hv, a, it, pa, pit, hi, ha, hne, -⟩
  · subst hroot
    obtain ⟨it, hit⟩ := root_item qt md hinv
    exact ⟨_, fetchMore_root qt client md _ it invalid_not_valid hit
      (children_lt qt md hinv _ it hit) (fun c hc => hinv.root_children it c hit hc)⟩
  · obtain ⟨pb, itA, -, hfm, -⟩ :=
      fetchMore_valid qt client md p a it hv hi ha (children_lt qt md hinv a it ha)
    exact ⟨_, hfm⟩

/-- C2: whatever the state and the answer of the remote side, once
`fetchMore(parent)` has returned `canFetchMore(parent)` is false; in every
reachable state `fetchMore` does return on every index of the tree; and an
item as the constructor makes it reports `canFetchMore` true. -/
theorem fetchMore_clears_canFetchMore (qt : Qt) (client : Client) (md : DS3BrowserModel)
    (parent : QModelIndex) :
    (∀ md', md.fetchMore qt client parent = some md' → md'.canFetchMore parent = some false) ∧
    (Reachable qt md → IsIndex md parent →
      ∃ md', md.fetchMore qt client parent = some md' ∧ md'.canFetchMore parent = some false) ∧
    (∀ a data bucketName pfx p, parent.isValid = true → parent.i = some a →
      md.items[a]? = some (DS3BrowserItem.new data bucketName pfx p) →
      md.canFetchMore parent = some true) := by
  have part1 : ∀ md', md.fetchMore qt client parent = some md' →
      md'.canFetchMore parent = some false := by
    intro md' h
    cases hv : parent.isValid with
    | false =>
      obtain ⟨it', h1, h2, h3⟩ := fetchMore_root_kept qt client md md' parent hv h
      simp [canFetchMore, itemOrRoot_invalid md' parent hv, deref, h3, h1, h2]
    | true =>
      cases hi : parent.i with
      | none =>
        have hio : md.itemOrRoot parent = none := by simp [itemOrRoot, hv, IndexToItem, hi]
        simp [fetchMore, hio, deref] at h
      | some a =>
        obtain ⟨it', h1, h2⟩ := fetchMore_item_kept qt client md md' parent a hv hi h
        simp [canFetchMore, itemOrRoot_valid md' parent a hv hi, deref, h1, h2]
  refine ⟨part1, ?_, ?_⟩
  · intro hr hp
    obtain ⟨md', h⟩ := fetchMore_returns qt client md parent
      (TreeInv_of_reachable qt _ md hr) hp
    exact ⟨md', h, part1 md' h⟩
  · intro a data bucketName pfx p hv hi ha
    simp [canFetchMore, itemOrRoot_valid md parent a hv hi, deref, ha, DS3BrowserItem.new]


/-! ## index and parent -/

theorem QList_indexOf_getElem? (l : List Nat) (k a : Nat) (hnd : l.Nodup)
    (h : l[k]? = some a) : QList.indexOf l a = (k : Int) := by
  have hk : k < l.length := lt_of_getElem?_eq_some _ _ _ h
  have hget : l[k] = a := by
    rw [List.getElem?_eq_getElem hk] at h
    injection h
  have hmem : a ∈ l := List.getElem?_mem h
  have := List.indexOf_getElem hnd k hk
  rw [hget] at this
  simp [QList.indexOf, hmem, this]

theorem index_out_of_range (md : DS3BrowserModel) (r c : Int) (p : QModelIndex) (rc : Int)
    (hrc : md.rowCount p = some rc) (h : r < 0 ∨ rc ≤ r) :
    md.index r c p = some QModelIndex.invalid := by
  have hhas : md.hasIndex r c p = some false := by
    unfold hasIndex
    by_cases h1 : r < 0 ∨ c < 0
    · simp [h1]
    · have h2 : ¬ r < rc := by omega
      simp [h1, hrc, h2]
  simp [index, hhas]

/-- C5: in a reachable state, for an index `p` of the tree (the root or a
valid index), a valid result of `index(r, c, p)` refers to the `r`-th child
of the item of `p`; its `parent` is the invalid index when `p` is the root,
and otherwise the index made of `GetRow` of the item of `p`, column 0 and
that item, which is `p` itself; `index` always returns, and it returns the
invalid index when `r` is not in `0 .. rowCount(p)-1`. -/
theorem index_parent_inverse (qt : Qt) (md : DS3BrowserModel) (p : QModelIndex) (r c : Int)
    (hr : Reachable qt md) (hp : IsIndex md p) :
    (∃ x, md.index r c p = some x) ∧
    (∀ x, md.index r c p = some x → x.isValid = true →
      (∃ pit ch, md.deref (md.itemOrRoot p) = some pit ∧
        pit.m_children[r.toNat]? = some ch ∧ 0 ≤ r ∧ x = createIndex r c (some ch)) ∧
      (p = QModelIndex.invalid → md.parent x = some QModelIndex.invalid) ∧
      (p.isValid = true → ∃ a row, p.i = some a ∧ md.GetRow a = some row ∧
        md.parent x = some (createIndex row 0 (some a)) ∧
        createIndex row 0 (some a) = p)) ∧
    (∀ rc, md.rowCount p = some rc → (r < 0 ∨ rc ≤ r) →
      md.index r c p = some QModelIndex.invalid) := by
  have hinv : TreeInv qt md := TreeInv_of_reachable qt _ md hr
  have hitem : ∃ pa pit, md.itemOrRoot p = some pa ∧ md.items[pa]? = some pit := by
    rcases IsIndex_cases qt md hinv p hp with hroot | ⟨hv, a, it, -, -, hi, ha, -⟩
    · subst hroot
      obtain ⟨it, hit⟩ := root_item qt md hinv
      exact ⟨_, it, itemOrRoot_invalid md _ invalid_not_valid, hit⟩
    · exact ⟨a, it, itemOrRoot_valid md p a hv hi, ha⟩
  obtain ⟨pa, pit, hpa, hpit⟩ := hitem
  have hderef : md.deref (md.itemOrRoot p) = some pit := by simp [hpa, deref, hpit]
  refine ⟨?_, ?_, fun rc hrc h => index_out_of_range md r c p rc hrc h⟩
  · have hrc : ∃ rc, md.rowCount p = some rc := by
      unfold rowCount
      split
      · exact ⟨_, rfl⟩
      · simp [hderef]
    have hcc : ∃ cc, md.columnCount p = some cc := by simp [columnCount, hderef]
    obtain ⟨rc, hrc⟩ := hrc
    obtain ⟨cc, hcc⟩ := hcc
    have hhas : ∃ b, md.hasIndex r c p = some b := by
      unfold hasIndex
      split
      · exact ⟨_, rfl⟩
      · simp only [hrc, hcc]
        split
        · exact ⟨_, rfl⟩
        · exact ⟨_, rfl⟩
    obtain ⟨b, hb⟩ := hhas
    unfold index
    rw [hb]
    cases b with
    | false => exact ⟨_, rfl⟩
    | true =>
      simp only [hderef]
      split
      · exact ⟨_, rfl⟩
      · exact ⟨_, rfl⟩
  · intro x hx hxv
    obtain ⟨pa', pit', ch, hpa', hpit', hr0, hc0, hpc, hch, hxeq⟩ :=
      index_valid md r c p x hx hxv
    rw [hpa] at hpa'
    injection hpa' with hpa'
    subst hpa'
    rw [hpit] at hpit'
    injection hpit' with hpit'
    subst hpit'
    obtain ⟨ci, hci, hcp⟩ := hinv.child_parent pa pit ch hpit (List.getElem?_mem hch)
    have hxi : IndexToItem x = some ch := by rw [hxeq]; rfl
    refine ⟨⟨pit, ch, hderef, hch, hr0, hxeq⟩, ?_, ?_⟩
    · intro hroot
      subst hroot
      have hpa0 : pa = md.m_rootItem := by
        have := itemOrRoot_invalid md QModelIndex.invalid invalid_not_valid
        rw [hpa] at this
        injection this
      simp [parent, hxv, hxi, deref, hci, hcp, hpa0]
    · intro hv
      rcases IsIndex_cases qt md hinv p hp with hroot | ⟨-, a, it, ppa, ppit, hi, ha, hne, hpar,
        hppit, hpr, hrow, hpm, hpc0⟩
      · subst hroot
        simp [invalid_not_valid] at hv
      · have hpaa : pa = a := by
          have := itemOrRoot_valid md p a hv hi
          rw [hpa] at this
          injection this
        subst hpaa
        have hrowa : md.GetRow pa = some p.r := by
          have hq := QList_indexOf_getElem? ppit.m_children p.r.toNat pa
            (hinv.nodup ppa ppit hppit) hrow
          simp only [GetRow, ha, hpar, hppit, hq]
          congr 1
          exact Int.toNat_of_nonneg hpr
        refine ⟨pa, p.r, hi, hrowa, ?_, ?_⟩
        · simp [parent, hxv, hxi, deref, hci, hcp, hne, hrowa]
        · cases p with
          | mk pr pc pi pm =>
            simp only at hi hpm hpc hpc0
            simp only [createIndex, QModelIndex.mk.injEq, true_and]
            exact ⟨by omega, hi.symm, hpm.symm⟩


/-! ## The page break comes last -/

theorem BreakLast_nil (qt : Qt) (md : DS3BrowserModel) : BreakLast qt md [] := by
  intro l1 c l2 h
  cases l1 <;> cases h

theorem BreakLast_congr (qt : Qt) (md md' : DS3BrowserModel) (cs : List Nat)
    (h : ∀ c ∈ cs, isBreak qt md' c = isBreak qt md c) (hb : BreakLast qt md cs) :
    BreakLast qt md' cs := by
  intro l1 c l2 hcs hc
  refine hb l1 c l2 hcs ?_
  rw [← h c (by rw [hcs]; simp)]
  exact hc

theorem BreakLast_sublist (qt : Qt) (md : DS3BrowserModel) (sub cs : List Nat)
    (hsub : sub.Sublist cs) (hb : BreakLast qt md cs) : BreakLast qt md sub := by
  intro s1 c s2 hs hc
  subst hs
  obtain ⟨r1, r2, hcs, -, h2⟩ := List.append_sublist_iff.mp hsub
  obtain ⟨q1, q2, hr2, hcq, hs2⟩ := List.cons_sublist_iff.mp h2
  obtain ⟨u, v, hq1⟩ := List.append_of_mem hcq
  have hdecomp : cs = (r1 ++ u) ++ c :: (v ++ q2) := by
    rw [hcs, hr2, hq1]; simp
  have := hb _ c _ hdecomp hc
  have hq2 : q2 = [] := (List.append_eq_nil.mp this).2
  subst hq2
  exact List.sublist_nil.mp hs2

theorem BreakLast_of_noBreak (qt : Qt) (md : DS3BrowserModel) (l r : List Nat)
    (hl : ∀ c ∈ l, isBreak qt md c = false) (hr : r.length ≤ 1) :
    BreakLast qt md (l ++ r) := by
  intro l1 c l2 h hc
  have hnot : c ∉ l := fun hm => by rw [hl c hm] at hc; cases hc
  -- `c` sits in `r`, which has at most one element
  rcases List.append_eq_append_iff.mp h with ⟨a', h1, h2⟩ | ⟨c', h1, h2⟩
  · -- l1 = l ++ a', r = a' ++ c :: l2
    rw [h2] at hr
    simp only [List.length_append, List.length_cons] at hr
    exact List.eq_nil_of_length_eq_zero (by omega)
  · -- l = l1 ++ c', c :: l2 = c' ++ r
    cases c' with
    | nil =>
      simp only [List.nil_append] at h2
      rw [← h2] at hr
      simp only [List.length_cons] at hr
      exact List.eq_nil_of_length_eq_zero (by omega)
    | cons d ds =>
      simp only [List.cons_append, List.cons.injEq] at h2
      exact absurd (by rw [h1, h2.1]; simp) hnot

theorem noBreak_init (qt : Qt) (md : DS3BrowserModel) (cs : List Nat) (c : Nat)
    (hb : BreakLast qt md cs) (hlast : cs.getLast? = some c) :
    ∀ x ∈ cs.dropLast, isBreak qt md x = false := by
  intro x hx
  obtain ⟨u, v, huv⟩ := List.append_of_mem hx
  have hcs : cs = u ++ x :: (v ++ [c]) := by
    rw [← List.dropLast_append_getLast? c hlast, huv]; simp
  cases hbx : isBreak qt md x with
  | false => rfl
  | true =>
    have := hb u x (v ++ [c]) hcs hbx
    simp at this

theorem noBreak_all (qt : Qt) (md : DS3BrowserModel) (cs : List Nat)
    (hb : BreakLast qt md cs)
    (hlast : ∀ c, cs.getLast? = some c → isBreak qt md c = false) :
    ∀ x ∈ cs, isBreak qt md x = false := by
  intro x hx
  cases hl : cs.getLast? with
  | none =>
    rw [List.getLast?_eq_none_iff] at hl
    subst hl
    cases hx
  | some c =>
    have hcs := List.dropLast_append_getLast? c hl
    rw [← hcs] at hx
    rcases List.mem_append.mp hx with h | h
    · exact noBreak_init qt md cs c hb hl x h
    · simp only [List.mem_singleton] at h
      subst h
      exact hlast x hl

theorem BreakInv_update (qt : Qt) (md : DS3BrowserModel) (a : Nat) (it itA : DS3BrowserItem)
    (New : List DS3BrowserItem) (W : List QModelIndex) (R : List GetBucketRequest)
    (hinv : TreeInv qt md) (hb : BreakInv qt md) (ha : md.items[a]? = some it)
    (hdata : itA.m_data = it.m_data) (hnew : ∀ x ∈ New, x.m_children = [])
    (hA : BreakLast qt ⟨md.items.set a itA ++ New, md.m_rootItem, W, R⟩ itA.m_children) :
    BreakInv qt ⟨md.items.set a itA ++ New, md.m_rootItem, W, R⟩ := by
  intro b itb hbb
  change (md.items.set a itA ++ New)[b]? = some itb at hbb
  rcases getElem?_update_cases _ _ _ _ _ _ hbb with ⟨-, -, hy⟩ | ⟨hba, hbl, hy⟩ | ⟨hbl, hy⟩
  · subst hy; exact hA
  · refine BreakLast_congr qt md _ _ ?_ (hb b itb hy)
    intro c hc
    exact isBreak_update qt md a it itA New W R ha hdata c (child_lt qt md hinv b itb hy c hc)
  · rw [hnew itb (List.getElem?_mem hy)]
    exact BreakLast_nil qt _

theorem BreakInv_update_nil (qt : Qt) (md : DS3BrowserModel) (a : Nat) (it itA : DS3BrowserItem)
    (W : List QModelIndex) (R : List GetBucketRequest)
    (hinv : TreeInv qt md) (hb : BreakInv qt md) (ha : md.items[a]? = some it)
    (hdata : itA.m_data = it.m_data) (hsub : itA.m_children.Sublist it.m_children) :
    BreakInv qt ⟨md.items.set a itA, md.m_rootItem, W, R⟩ := by
  have := BreakInv_update qt md a it itA [] W R hinv hb ha hdata (by intro x hx; cases hx) (by
    refine BreakLast_congr qt md _ _ ?_ (BreakLast_sublist qt md _ _ hsub (hb a it ha))
    intro c hc
    exact isBreak_update qt md a it itA [] W R ha hdata c
      (child_lt qt md hinv a it ha c (hsub.subset hc)))
  simpa using this


theorem BreakLast_after_fetch (qt : Qt) (md : DS3BrowserModel) (a : Nat)
    (it itA : DS3BrowserItem) (FO B : List DS3BrowserItem) (W : List QModelIndex)
    (R : List GetBucketRequest) (L : List Nat)
    (ha : md.items[a]? = some it) (hdata : itA.m_data = it.m_data)
    (hL : ∀ c ∈ L, c < md.items.length ∧ isBreak qt md c = false)
    (hFO : ∀ x ∈ FO, x.GetData qt KIND ≠ QVariant.str BREAK) (hB : B.length ≤ 1) :
    BreakLast qt ⟨md.items.set a itA ++ (FO ++ B), md.m_rootItem, W, R⟩
      (L ++ List.range' md.items.length (FO ++ B).length) := by
  have hsplit : List.range' md.items.length (FO ++ B).length
      = List.range' md.items.length FO.length
        ++ List.range' (md.items.length + FO.length) B.length := by
    have := List.range'_append md.items.length FO.length B.length 1
    simp only [Nat.one_mul] at this
    rw [this, List.length_append, Nat.add_comm]
  rw [hsplit, ← List.append_assoc L]
  refine BreakLast_of_noBreak qt _ _ _ ?_ (by simpa using hB)
  intro c hc
  rcases List.mem_append.mp hc with h | h
  · rw [isBreak_update qt md a it itA (FO ++ B) W R ha hdata c (hL c h).1]
    exact (hL c h).2
  · rw [mem_range'_iff] at h
    obtain ⟨k, rfl⟩ : ∃ k, c = md.items.length + k := ⟨c - md.items.length, by omega⟩
    have hk : k < FO.length := by omega
    have hget : (FO ++ B)[k]? = some FO[k] := by
      rw [List.getElem?_append_left hk]
      exact List.getElem?_eq_getElem hk
    rw [isBreak_new qt md a itA (FO ++ B) W R k FO[k] hget]
    simpa using hFO FO[k] (List.getElem_mem _)

theorem fetchMore_BreakInv (qt : Qt) (client : Client) (md md' : DS3BrowserModel)
    (p : QModelIndex) (hinv : TreeInv qt md) (hb : BreakInv qt md) (hp : IsIndex md p)
    (hc : p.c ≤ 0) (h : md.fetchMore qt client p = some md') : BreakInv qt md' := by
  rcases IsIndex_cases qt md hinv p hp with hroot | ⟨hv, a, it, pa, pit, hi, ha, hne, -⟩
  · subst hroot
    obtain ⟨it, hit⟩ := root_item qt md hinv
    rw [fetchMore_root qt client md _ it invalid_not_valid hit (children_lt qt md hinv _ it hit)
      (fun c hc => hinv.root_children it c hit hc)] at h
    injection h with h
    subst h
    exact BreakInv_update_nil qt md _ it _ _ _ hinv hb hit rfl (List.Sublist.refl _)
  · have hch := children_lt qt md hinv a it ha
    obtain ⟨pb, itA, hpb, hfm, hdata, hpar, -, -, hchildren⟩ :=
      fetchMore_valid qt client md p a it hv hi ha hch
    have hchildren := hchildren hc
    obtain ⟨pb', hpb', hs1, hs2⟩ := pageBreakItem_spec qt md it hch
    rw [hpb] at hpb'
    injection hpb' with hpb'
    subst hpb'
    rw [hfm] at h
    injection h with h
    subst h
    obtain ⟨FO, B, hFOB, hFO, hB⟩ :=
      createdItems_kinds qt client it (some a) (folderChildNames qt md it)
    have hnewc : ∀ x ∈ createdItems qt client it (some a) (folderChildNames qt md it),
        x.m_children = [] :=
      fun x hx => (createdItems_props qt client it (some a) _ x hx).1
    refine BreakInv_update qt md a it itA _ _ _ hinv hb ha hdata hnewc ?_
    rw [hchildren, hFOB]
    cases hsome : pb.isSome with
    | true =>
      obtain ⟨hne', c, hlast, -⟩ := hs1 hsome
      have hpos : 0 < it.m_children.length := List.length_pos.mpr hne'
      simp only [if_true]
      rw [List.eraseIdx_append_of_lt_length (by omega),
        ← List.dropLast_eq_eraseIdx (by omega)]
      refine BreakLast_after_fetch qt md a it itA FO B _ _ _ ha hdata ?_ hFO hB
      intro x hx
      exact ⟨hch x (List.dropLast_subset _ hx), noBreak_init qt md _ c (hb a it ha) hlast x hx⟩
    | false =>
      simp only [Bool.false_eq_true, if_false]
      refine BreakLast_after_fetch qt md a it itA FO B _ _ _ ha hdata ?_ hFO hB
      intro x hx
      exact ⟨hch x hx, noBreak_all qt md _ (hb a it ha) (hs2 hsome) x hx⟩

theorem Refresh_BreakInv (qt : Qt) (md md' : DS3BrowserModel) (p : QModelIndex)
    (hinv : TreeInv qt md) (hb : BreakInv qt md) (h : md.Refresh p = some md') :
    BreakInv qt md' := by
  obtain ⟨a, it, -, ha, hmd⟩ := modifyItem_eq_some md md' _ _ h
  subst hmd
  exact BreakInv_update_nil qt md a it _ _ _ hinv hb ha rfl (List.nil_sublist _)

theorem removeRows_BreakInv (qt : Qt) (md md' : DS3BrowserModel) (row count : Int)
    (p : QModelIndex) (b : Bool) (hinv : TreeInv qt md) (hb : BreakInv qt md)
    (h : md.removeRows row count p = some (b, md')) : BreakInv qt md' := by
  rcases removeRows_shape md md' row count p b h with h | ⟨a, it, sub, -, ha, hsub, hmd⟩
  · subst h; exact hb
  · subst hmd
    exact BreakInv_update_nil qt md a it _ _ _ hinv hb ha rfl hsub

theorem appendBucket_BreakInv (qt : Qt) (r : Nat) (W : List QModelIndex) (owner : String)
    (md : DS3BrowserModel) (rawBucket : ds3_bucket) (md' : DS3BrowserModel)
    (hP : (TreeInv qt md ∧ md.m_rootItem = r ∧ md.watchers = W) ∧ BreakInv qt md)
    (h : appendBucket qt (some r) owner md rawBucket = some md') :
    (TreeInv qt md' ∧ md'.m_rootItem = r ∧ md'.watchers = W) ∧ BreakInv qt md' := by
  refine ⟨appendBucket_TreeInv qt r W owner md rawBucket md' hP.1 h, ?_⟩
  obtain ⟨⟨hinv, hr, hW⟩, hb⟩ := hP
  subst hr
  obtain ⟨it, hit⟩ := root_item qt md hinv
  rw [appendBucket_eq qt md _ it owner rawBucket hit] at h
  injection h with h
  subst h
  refine BreakInv_update qt md _ it _ _ _ _ hinv hb hit rfl ?_ ?_
  · intro x hx
    simp only [List.mem_singleton] at hx
    subst hx
    rfl
  · refine BreakLast_of_noBreak qt _ _ _ ?_ (by simp)
    intro c hc
    rw [isBreak_update qt md _ it _ _ _ _ hit ?_ c (child_lt qt md hinv _ it hit c hc)]
    · exact hinv.root_children it c hit hc
    · rfl

theorem HandleGetServiceResponse_BreakInv (qt : Qt) (md md' : DS3BrowserModel) (sender : Nat)
    (response : ds3_get_service_response) (hinv : TreeInv qt md) (hb : BreakInv qt md)
    (h : md.HandleGetServiceResponse qt sender response = some md') : BreakInv qt md' := by
  simp only [HandleGetServiceResponse, Option.bind_eq_bind, Option.bind_eq_some] at h
  obtain ⟨parent, hw, md1, hf, h⟩ := h
  have hpv : parent.isValid = false := hinv.watchers_root parent (List.getElem?_mem hw)
  rw [itemOrRoot_invalid md parent hpv] at hf h
  obtain ⟨⟨hinv1, hr1, hW1⟩, hb1⟩ := foldlM_preserves
    (fun m => (TreeInv qt m ∧ m.m_rootItem = md.m_rootItem ∧ m.watchers = md.watchers)
      ∧ BreakInv qt m)
    (appendBucket qt (some md.m_rootItem) response.owner)
    (fun m x m' hP hm => appendBucket_BreakInv qt _ _ response.owner m x m' hP hm)
    response.buckets md md1 ⟨⟨hinv, rfl, rfl⟩, hb⟩ hf
  obtain ⟨a, it, -, ha, hmd⟩ := modifyItem_eq_some _ md' _ _ h
  subst hmd
  exact BreakInv_update_nil qt md1 a it _ _ _ hinv1 hb1 ha rfl (List.Sublist.refl _)

theorem BreakInv_new (qt : Qt) : BreakInv qt DS3BrowserModel.new := by
  intro a it h
  have ha : a < 1 := lt_of_getElem?_eq_some _ _ _ h
  have : a = 0 := by omega
  subst this
  have : it = DS3BrowserItem.new column_names "" "" none := by
    simp [DS3BrowserModel.new] at h
    exact h.symm
  subst this
  exact BreakLast_nil qt _

theorem BreakInv_of_reachable (qt : Qt) (md : DS3BrowserModel) (h : ReachableCol0 qt md) :
    BreakInv qt md := by
  unfold ReachableCol0 at h
  induction h with
  | init => exact BreakInv_new qt
  | fetchMore client md md' parent hr hp hc hfm ih =>
    exact fetchMore_BreakInv qt client md md' parent (TreeInv_of_reachable qt _ md hr) ih hp hc hfm
  | handleGetServiceResponse md md' sender response hr hh ih =>
    exact HandleGetServiceResponse_BreakInv qt md md' sender response
      (TreeInv_of_reachable qt _ md hr) ih hh
  | refresh md md' index hr _ hrf ih =>
    exact Refresh_BreakInv qt md md' index (TreeInv_of_reachable qt _ md hr) ih hrf
  | removeRows md md' row count parent b hr _ hrm ih =>
    exact removeRows_BreakInv qt md md' row count parent b (TreeInv_of_reachable qt _ md hr) ih hrm


/-! ## Sample states -/

theorem sample0_eq :
    DS3BrowserModel.new.fetchMore qt0 truncatedEmpty QModelIndex.invalid = some sample0 := by
  decide

theorem sample1_eq :
    sample0.HandleGetServiceResponse qt0 0 ⟨"me", [⟨"b", "d"⟩]⟩ = some sample1 := by
  decide

theorem sampleOneBreak_eq :
    sample1.fetchMore qt0 truncatedEmpty sample1BucketOwner = some sampleOneBreak := by
  decide

theorem sampleTwoBreaks_eq :
    sampleOneBreak.fetchMore qt0 truncatedEmpty sample1BucketOwner = some sampleTwoBreaks := by
  decide

theorem sampleListed_eq :
    sample1.fetchMore qt0 listing1 sample1Bucket = some sampleListed := by
  decide


theorem sample1_via (P : QModelIndex → Prop) (h : P QModelIndex.invalid) :
    ReachableVia qt0 P sample1 :=
  ReachableVia.handleGetServiceResponse sample0 sample1 0 ⟨"me", [⟨"b", "d"⟩]⟩
    (ReachableVia.fetchMore truncatedEmpty DS3BrowserModel.new sample0 QModelIndex.invalid
      ReachableVia.init IsIndex.root h sample0_eq)
    sample1_eq

theorem sample1Bucket_isIndex : IsIndex sample1 sample1Bucket :=
  IsIndex.child QModelIndex.invalid sample1Bucket 0 0 IsIndex.root (by decide) (by decide)

theorem sample1BucketOwner_isIndex : IsIndex sample1 sample1BucketOwner :=
  IsIndex.child QModelIndex.invalid sample1BucketOwner 0 1 IsIndex.root (by decide) (by decide)

theorem sampleOneBreak_isIndex : IsIndex sampleOneBreak sample1BucketOwner :=
  IsIndex.child QModelIndex.invalid sample1BucketOwner 0 1 IsIndex.root (by decide) (by decide)

theorem sampleListed_isIndex : IsIndex sampleListed sample1Bucket :=
  IsIndex.child QModelIndex.invalid sample1Bucket 0 0 IsIndex.root (by decide) (by decide)

theorem sampleListed_reachable : ReachableCol0 qt0 sampleListed :=
  ReachableVia.fetchMore listing1 sample1 sampleListed sample1Bucket
    (sample1_via _ (by decide)) sample1Bucket_isIndex (by decide) sampleListed_eq

theorem ReachableCol0_reachable (qt : Qt) (md : DS3BrowserModel) (h : ReachableCol0 qt md) :
    Reachable qt md := by
  unfold ReachableCol0 at h
  unfold Reachable
  induction h with
  | init => exact ReachableVia.init
  | fetchMore client md md' parent _ hp _ hfm ih =>
    exact ReachableVia.fetchMore client md md' parent ih hp trivial hfm
  | handleGetServiceResponse md md' sender response _ hh ih =>
    exact ReachableVia.handleGetServiceResponse md md' sender response ih hh
  | refresh md md' index _ hp hr ih => exact ReachableVia.refresh md md' index ih hp hr
  | removeRows md md' row count parent b _ hp hr ih =>
    exact ReachableVia.removeRows md md' row count parent b ih hp hr

/-! ## The page break invariant -/

/-- C8, as the code has it: in every state reached from a new model by
`fetchMore` on the root or on indexes of column 0, `HandleGetServiceResponse`,
`Refresh` and `removeRows`, an item has at most one child of kind Break and
such a child is its last child; and `fetchMore` through an index of column 0
whose item ends in a page break returns, having requested the next page for
that item, with the old page break no longer among the children and the
items of the new page (folders, objects, and a page break exactly when the
response is truncated) appended after the other children. -/
theorem page_break_last (qt : Qt) (md : DS3BrowserModel) (hr : ReachableCol0 qt md) :
    (∀ (a : Nat) (it : DS3BrowserItem), md.items[a]? = some it →
      (it.m_children.filter (fun c => isBreak qt md c)).length ≤ 1 ∧
      (∀ c ∈ it.m_children, isBreak qt md c = true → it.m_children.getLast? = some c)) ∧
    (∀ (client : Client) (p : QModelIndex) (a : Nat) (it : DS3BrowserItem) (c : Nat),
      IsIndex md p → p.isValid = true →
      p.c ≤ 0 → p.i = some a → md.items[a]? = some it →
      it.m_children.getLast? = some c → isBreak qt md c = true →
      ∃ md' it', md.fetchMore qt client p = some md' ∧
        md'.requests = md.requests ++ [requestFor qt it] ∧
        md'.items[a]? = some it' ∧
        it'.m_children = it.m_children.dropLast ++ List.range' md.items.length
          (expectedFolders qt md it a (client.GetBucket (requestFor qt it))
            ++ expectedObjects qt it a (client.GetBucket (requestFor qt it))
            ++ expectedBreak qt it a (client.GetBucket (requestFor qt it))).length ∧
        c ∉ it'.m_children ∧
        (∀ k, md'.items[md.items.length + k]?
          = (expectedFolders qt md it a (client.GetBucket (requestFor qt it))
            ++ expectedObjects qt it a (client.GetBucket (requestFor qt it))
            ++ expectedBreak qt it a (client.GetBucket (requestFor qt it)))[k]?) ∧
        (∀ b, b < md.items.length → b ≠ a → md'.items[b]? = md.items[b]?)) := by
  have hb := BreakInv_of_reachable qt md hr
  have hinv := TreeInv_of_reachable qt _ md hr
  constructor
  · intro a it ha
    have hbl := hb a it ha
    constructor
    · cases hl : it.m_children.getLast? with
      | none =>
        rw [List.getLast?_eq_none_iff] at hl
        simp [hl]
      | some c =>
        have hinit := noBreak_init qt md _ c hbl hl
        rw [← List.dropLast_append_getLast? c hl, List.filter_append]
        have : it.m_children.dropLast.filter (fun c => isBreak qt md c) = [] := by
          rw [List.filter_eq_nil_iff]
          intro x hx
          simp [hinit x hx]
        rw [this]
        simp only [List.nil_append]
        exact (List.length_filter_le _ _).trans (by simp)
    · intro c hc hbr
      obtain ⟨u, v, huv⟩ := List.append_of_mem hc
      have hv := hbl u c v huv hbr
      subst hv
      rw [huv]
      simp
  · intro client p a it c hp hv hc hi ha hlast hbr
    have hch := children_lt qt md hinv a it ha
    obtain ⟨pb, itA, hpb, hfm, -, -, -, -, hchildren⟩ :=
      fetchMore_valid qt client md p a it hv hi ha hch
    have hchildren := hchildren hc
    obtain ⟨pb', hpb', -, hs2⟩ := pageBreakItem_spec qt md it hch
    rw [hpb] at hpb'
    injection hpb' with hpb'
    subst hpb'
    have hsome : pb.isSome = true := by
      cases hs : pb.isSome with
      | true => rfl
      | false =>
        have := hs2 hs c hlast
        rw [this] at hbr
        cases hbr
    have hlt : a < md.items.length := lt_of_getElem?_eq_some _ _ _ ha
    have hpos : 0 < it.m_children.length := by
      cases hcs : it.m_children with
      | nil => rw [hcs] at hlast; cases hlast
      | cons x xs => simp
    have hE := createdItems_eq qt client md it a
    rw [hE] at hfm hchildren
    have hkids : itA.m_children = it.m_children.dropLast ++ List.range' md.items.length
        (expectedFolders qt md it a (client.GetBucket (requestFor qt it))
          ++ expectedObjects qt it a (client.GetBucket (requestFor qt it))
          ++ expectedBreak qt it a (client.GetBucket (requestFor qt it))).length := by
      rw [hchildren]
      simp only [hsome, if_true]
      rw [List.eraseIdx_append_of_lt_length (by omega),
        ← List.dropLast_eq_eraseIdx (by omega)]
    refine ⟨_, itA, hfm, rfl, getElem?_set_append_self _ _ _ _ hlt, hkids, ?_, ?_, ?_⟩
    · rw [hkids]
      intro hmem
      rcases List.mem_append.mp hmem with h | h
      · have hnd := hinv.nodup a it ha
        rw [← List.dropLast_append_getLast? c hlast] at hnd
        have := (List.nodup_append.mp hnd).2.2
        exact this h (by simp)
      · rw [mem_range'_iff] at h
        have := hch c (List.mem_of_mem_getLast? hlast)
        omega
    · intro k
      exact getElem?_set_append_new _ _ _ _ _
    · intro b hb' hne
      exact getElem?_set_append_old _ _ _ _ _ hb' hne

/-- C8 on the bucket of `sampleListed`, whose children are two folders, two
objects and a page break: there is one child of kind Break and it is last;
`fetchMore` with the listing `listing1`, whose folders are there already,
takes the page break at address 6 away and appends two objects and the new
page break, at the addresses 7, 8 and 9. -/
theorem page_break_last_witness :
    ReachableCol0 qt0 sampleListed ∧
    sampleListed.items[1]? = some sampleListedBucketItem ∧
    sampleListedBucketItem.m_children = [2, 3, 4, 5, 6] ∧
    isBreak qt0 sampleListed 6 = true ∧
    (sampleListedBucketItem.m_children.filter (fun c => isBreak qt0 sampleListed c)).length ≤ 1 ∧
    (∀ c ∈ sampleListedBucketItem.m_children, isBreak qt0 sampleListed c = true →
      sampleListedBucketItem.m_children.getLast? = some c) ∧
    IsIndex sampleListed sample1Bucket ∧ sample1Bucket.isValid = true ∧ sample1Bucket.c ≤ 0 ∧
    sample1Bucket.i = some 1 ∧ sampleListedBucketItem.m_children.getLast? = some 6 ∧
    ∃ md' it', sampleListed.fetchMore qt0 listing1 sample1Bucket = some md' ∧
      md'.items[1]? = some it' ∧ it'.m_children = [2, 3, 4, 5, 7, 8, 9] ∧
      md'.items[7]? = some (DS3BrowserItem.new
        [.str "a.txt", .str "me", .ulong 10, .str "Object", .str ""] "b" "" (some 1)) ∧
      md'.items[8]? = some (DS3BrowserItem.new
        [.str "b.txt", .str "me", .ulong 20, .str "Object", .str "t"] "b" "" (some 1)) ∧
      md'.items[9]? = some (DS3BrowserItem.new
        [.str "Click to load more", .str "", .str "", .str "Break"] "b" "" (some 1)) :=
  ⟨sampleListed_reachable, by decide, by decide, by decide,
    ((page_break_last qt0 sampleListed sampleListed_reachable).1 1 _ (by decide)).1,
    ((page_break_last qt0 sampleListed sampleListed_reachable).1 1 _ (by decide)).2,
    sampleListed_isIndex, by decide, by decide, by decide, by decide, by
    obtain ⟨md', it', h1, -, h3, h4, -, h6, -⟩ :=
      (page_break_last qt0 sampleListed sampleListed_reachable).2 listing1 sample1Bucket 1
        sampleListedBucketItem 6 sampleListed_isIndex (by decide) (by decide) (by decide)
        (by decide) (by decide) (by decide)
    have hlen : sampleListed.items.length = 7 := by decide
    rw [hlen] at h6
    refine ⟨md', it', h1, h3, by rw [h4]; decide, ?_, ?_, ?_⟩
    · rw [h6 0]; decide
    · rw [h6 1]; decide
    · rw [h6 2]; decide⟩

/-- C8 as stated fails: two calls of `fetchMore` through the index of
column 1 of a bucket, each answered by a truncated listing, lead to a state
in which the bucket has two children of kind Break. -/
theorem two_page_breaks_reachable :
    Reachable qt0 sampleTwoBreaks ∧
    ∃ it, sampleTwoBreaks.items[1]? = some it ∧ it.m_children = [2, 3] ∧
      isBreak qt0 sampleTwoBreaks 2 = true ∧ isBreak qt0 sampleTwoBreaks 3 = true ∧
      (it.m_children.filter (fun c => isBreak qt0 sampleTwoBreaks c)).length = 2 :=
  ⟨ReachableVia.fetchMore truncatedEmpty sampleOneBreak sampleTwoBreaks sample1BucketOwner
      (ReachableVia.fetchMore truncatedEmpty sample1 sampleOneBreak sample1BucketOwner
        (sample1_via _ trivial) sample1BucketOwner_isIndex trivial sampleOneBreak_eq)
      sampleOneBreak_isIndex trivial sampleTwoBreaks_eq,
    (sampleTwoBreaks.items[1]?).getD sample1BucketItem, by decide, by decide, by decide,
    by decide, by decide⟩


/-! ## The properties on the samples -/

/-- C2 on `sample1`: `fetchMore` on the bucket returns `sampleListed`, in
which `canFetchMore` of the bucket is false; before, the bucket item was as
the constructor made it and reported true. -/
theorem fetchMore_clears_canFetchMore_witness :
    sample1.fetchMore qt0 listing1 sample1Bucket = some sampleListed ∧
    Reachable qt0 sample1 ∧ IsIndex sample1 sample1Bucket ∧
    sample1Bucket.isValid = true ∧ sample1Bucket.i = some 1 ∧
    sample1.items[1]? = some (DS3BrowserItem.new
      [.str "b", .str "me", .str "--", .str "Bucket", .str "d"] "b" "" (some 0)) ∧
    sampleListed.canFetchMore sample1Bucket = some false ∧
    (∃ md', sample1.fetchMore qt0 listing1 sample1Bucket = some md' ∧
      md'.canFetchMore sample1Bucket = some false) ∧
    sample1.canFetchMore sample1Bucket = some true :=
  ⟨sampleListed_eq, sample1_via _ trivial, sample1Bucket_isIndex, by decide, by decide,
    by decide,
    (fetchMore_clears_canFetchMore qt0 listing1 sample1 sample1Bucket).1 sampleListed
      sampleListed_eq,
    (fetchMore_clears_canFetchMore qt0 listing1 sample1 sample1Bucket).2.1
      (sample1_via _ trivial) sample1Bucket_isIndex,
    (fetchMore_clears_canFetchMore qt0 listing1 sample1 sample1Bucket).2.2 1
      [.str "b", .str "me", .str "--", .str "Bucket", .str "d"] "b" "" (some 0)
      (by decide) (by decide) (by decide)⟩

theorem removeRowsLoop_add (p : Ptr) (row : Int) (n m : Nat) :
    ∀ (md : DS3BrowserModel) (i : Int),
      md.removeRowsLoop p row (n + m) i
        = (md.removeRowsLoop p row n i).bind (fun md' => md'.removeRowsLoop p row m (i + n)) := by
  induction n with
  | zero =>
    intro md i
    simp [removeRowsLoop]
  | succ n ih =>
    intro md i
    have hnm : n + 1 + m = (n + m) + 1 := by omega
    rw [hnm]
    cases p with
    | none => simp [removeRowsLoop]
    | some a =>
      cases hit : md.items[a]? with
      | none => simp [removeRowsLoop, hit]
      | some it =>
        cases hrm : it.RemoveChild (intAdd row i) with
        | none => simp [removeRowsLoop, hit, hrm]
        | some it' =>
          simp only [removeRowsLoop, hit, hrm, ih]
          have : i + 1 + (n : Int) = i + ((n + 1 : Nat) : Int) := by push_cast; omega
          rw [this]

/-- Once `row + i` is past the end of the children, the rest of the loop of
`removeRows` changes nothing. -/
theorem removeRowsLoop_past_end (a : Nat) (row : Int) (n : Nat) :
    ∀ (md : DS3BrowserModel) (it : DS3BrowserItem) (i : Int),
      md.items[a]? = some it → IsInt row → 0 ≤ i → (it.m_children.length : Int) ≤ row + i →
      row + i + n ≤ 2 ^ 31 → md.removeRowsLoop (some a) row n i = some md := by
  induction n with
  | zero =>
    intro md it i _ _ _ _ _
    rfl
  | succ n ih =>
    intro md it i ha hrow hi hlen hbound
    have hsum : intAdd row i = row + i := by
      apply intAdd_exact
      have h1 := hrow.1
      constructor
      · omega
      · push_cast at hbound; omega
    have hrm : it.RemoveChild (intAdd row i) = some it := by
      rw [hsum]
      unfold DS3BrowserItem.RemoveChild
      rw [if_neg (by omega)]
    have hself : ({ md with items := md.items.set a it } : DS3BrowserModel) = md := by
      have : md.items.set a it = md.items := set_self_of_getElem? _ _ _ ha
      simp [this]
    simp only [removeRowsLoop, ha, hrm, hself]
    exact ih md it (i + 1) ha hrow (by omega) (by omega) (by push_cast at hbound ⊢; omega)

/-- C4 at a failing input: the bucket of `sampleListed` has the five
children 2, 3, 4, 5, 6, and `1 + 2147483647` exceeds its `rowCount`, yet the
`int` sum of the guard is negative, `removeRows(1, 2147483647)` returns true
and the children 3 and 5 are gone. -/
theorem removeRows_overflow_accepts :
    (sampleListed.items[1]?).map (fun it => it.m_children) = some [2, 3, 4, 5, 6] ∧
    sampleListed.rowCount sample1Bucket = some 5 ∧
    IsInt 1 ∧ IsInt 2147483647 ∧ (1 : Int) + 2147483647 > 5 ∧
    intAdd 1 2147483647 = -2147483648 ∧
    (sampleListed.removeRows 1 2147483647 sample1Bucket).map
      (fun x => (x.1, (x.2.items[1]?).map (fun it => it.m_children)))
      = some (true, some [2, 4, 6]) := by
  have hrc : sampleListed.rowCount sample1Bucket = some 5 := by decide
  have hsum : intAdd 1 2147483647 = -2147483648 := by decide
  refine ⟨by decide, hrc, by decide, by decide, by decide, hsum, ?_⟩
  have hg1 : ¬ ((1 : Int) < 0 ∨ (2147483647 : Int) ≤ 0) := by decide
  have hg2 : ¬ ((-2147483648 : Int) > 5) := by decide
  have hn : (2147483647 : Int).toNat = 2 + 2147483645 := by decide
  have hfirst : sampleListed.removeRowsLoop (some 1) 1 2 0 = some sampleTwoRemoved := by decide
  have hitem : sampleTwoRemoved.items[1]? = some sampleTwoRemovedBucketItem := by decide
  have hrest : sampleTwoRemoved.removeRowsLoop (some 1) 1 2147483645 (0 + ((2 : Nat) : Int))
      = some sampleTwoRemoved :=
    removeRowsLoop_past_end 1 1 2147483645 sampleTwoRemoved sampleTwoRemovedBucketItem _ hitem
      (by decide) (by decide) (by decide) (by decide)
  have hloop : sampleListed.removeRowsLoop (IndexToItem sample1Bucket) 1
      (2147483647 : Int).toNat 0 = some sampleTwoRemoved := by
    rw [hn, show IndexToItem sample1Bucket = some 1 from rfl, removeRowsLoop_add, hfirst,
      Option.some_bind, hrest]
  have hres : sampleListed.removeRows 1 2147483647 sample1Bucket
      = some (true, sampleTwoRemoved) := by
    unfold removeRows
    rw [if_neg hg1]
    simp only [hrc, hsum, if_neg hg2, hloop]
  rw [hres]
  decide

/-- C5 on `sampleListed`: row 1 under the bucket is the folder at address
3, and its parent is the index of the bucket. -/
theorem index_parent_inverse_witness :
    Reachable qt0 sampleListed ∧ IsIndex sampleListed sample1Bucket ∧
    sampleListed.index 1 0 sample1Bucket = some (createIndex 1 0 (some 3)) ∧
    (createIndex 1 0 (some 3)).isValid = true ∧ sample1Bucket.isValid = true ∧
    (∃ a row, sample1Bucket.i = some a ∧ sampleListed.GetRow a = some row ∧
      sampleListed.parent (createIndex 1 0 (some 3)) = some (createIndex row 0 (some a)) ∧
      createIndex row 0 (some a) = sample1Bucket) ∧
    sampleListed.rowCount sample1Bucket = some 5 ∧
    sampleListed.index 5 0 sample1Bucket = some QModelIndex.invalid :=
  ⟨ReachableCol0_reachable qt0 _ sampleListed_reachable, sampleListed_isIndex, by decide,
    by decide, by decide,
    ((index_parent_inverse qt0 sampleListed sample1Bucket 1 0
      (ReachableCol0_reachable qt0 _ sampleListed_reachable) sampleListed_isIndex).2.1
        (createIndex 1 0 (some 3)) (by decide) (by decide)).2.2 (by decide),
    by decide,
    (index_parent_inverse qt0 sampleListed sample1Bucket 5 0
      (ReachableCol0_reachable qt0 _ sampleListed_reachable) sampleListed_isIndex).2.2
        5 (by decide) (by decide)⟩

/-- C6 on `sampleListed`: the bucket has children, the page break at
address 6 has none, the root has. -/
theorem hasChildren_by_kind_witness :
    sampleListed.hasChildren qt0 QModelIndex.invalid = some true ∧
    sampleListed.hasChildren qt0 sample1Bucket = some true ∧
    sampleListed.hasChildren qt0 (createIndex 4 0 (some 6)) = some false :=
  ⟨(hasChildren_by_kind qt0 sampleListed QModelIndex.invalid).1 (by decide),
    ((hasChildren_by_kind qt0 sampleListed sample1Bucket).2 1
      ((sampleListed.items[1]?).getD sample1BucketItem) (by decide) (by decide) (by decide)).1
      (Or.inl (by decide)),
    ((hasChildren_by_kind qt0 sampleListed (createIndex 4 0 (some 6))).2 6
      ((sampleListed.items[6]?).getD sample1BucketItem) (by decide) (by decide) (by decide)).2
      (Or.inr (by decide))⟩

/-- C7 on a file that reads all it is asked for: 2 * 3 bytes are requested,
6 are returned and 6 are passed on to the bulk work item. -/
theorem ReadFile_WriteFile_bookkeeping_witness :
    (0 : Int) ≤ 6 ∧ (6 : Int) < 2 ^ 63 ∧ (toSizeT 6 : Int) = 6 ∧
    ObjectWorkItem.ReadFile (fun n => n) ⟨some ⟨10, [10]⟩⟩ 2 3 = (6, ⟨some ⟨16, [10, 6]⟩⟩) :=
  ⟨by decide, by decide,
    (ReadFile_WriteFile_bookkeeping (fun n => n) 2 3).2.2.2 6 (by decide) (by decide),
    by decide⟩

/-- C3 at two failing inputs: the bucket of `sampleListed` has the children
2, 3, 4, 5, 6; `removeRows(0, 2)` returns true and leaves 3, 5, 6 (the rows
0 and 2 are gone, not the rows 0 and 1), and `removeRows(3, 2)` returns true
and leaves 2, 3, 4, 6 (one row is gone, not two). -/
theorem removeRows_skips_rows :
    (sampleListed.items[1]?).map (fun it => it.m_children) = some [2, 3, 4, 5, 6] ∧
    sampleListed.rowCount sample1Bucket = some 5 ∧
    (sampleListed.removeRows 0 2 sample1Bucket).map
      (fun x => (x.1, (x.2.items[1]?).map (fun it => it.m_children)))
      = some (true, some [3, 5, 6]) ∧
    (sampleListed.removeRows 3 2 sample1Bucket).map
      (fun x => (x.1, (x.2.items[1]?).map (fun it => it.m_children)))
      = some (true, some [2, 3, 4, 6]) := by
  decide

end DS3
